import Mathlib

/-!
Verification of the flashcard quiz engine of the `Cantonese` repository.

The Python sources are shallowly embedded:
* Python `str` values are modelled as `List Char` (`PyStr`); `str.strip`,
  `str.lower`, `str.upper`, `str.split`, substring tests (`in`), `str.isdigit`
  and `int`/`str` conversions are modelled by the functions below (whitespace
  and case mapping follow the ASCII core, which covers the data this program
  processes).
* Randomness (`random.randint`, `random.choice`, `random.choices`) is passed in
  as an explicit oracle parameter; an oracle value `r` selects element
  `r % n` of an `n`-element candidate list, so every element of the support is
  reachable.
* In-place mutation of the shared card dictionaries is modelled by explicit
  state passing (`List.set` on the card list / returning the updated card).
-/

/-- Python strings, modelled as their list of characters. -/
abbrev PyStr := List Char

/-- Model of Python `str.strip()` (remove leading and trailing whitespace). -/
def pyStrip (s : PyStr) : PyStr :=
  ((s.dropWhile Char.isWhitespace).reverse.dropWhile Char.isWhitespace).reverse

/-- Model of Python `str.lower()` (ASCII case mapping). -/
def pyLower (s : PyStr) : PyStr := s.map Char.toLower

/-- Model of Python `str.upper()` (ASCII case mapping). -/
def pyUpper (s : PyStr) : PyStr := s.map Char.toUpper

/-- Model of Python `str.isdigit()`: non-empty and every character a digit. -/
def pyIsDigit (s : PyStr) : Bool := !s.isEmpty && s.all Char.isDigit

/-- Value of a string of decimal digits (the core of Python `int(..)` on a
digit string). -/
def pyParseDigits (s : PyStr) : Nat :=
  s.foldl (fun acc c => acc * 10 + (c.toNat - 48)) 0

/-- The decimal digit character for `d`. -/
def digitChar (d : Nat) : Char := Char.ofNat (48 + d)

/-- Fuel-driven digit extraction (structural recursion, so that terms reduce
inside the kernel). -/
def natDigitsRevGo : Nat → Nat → List Nat
  | 0, _ => []
  | fuel + 1, n => if n = 0 then [] else (n % 10) :: natDigitsRevGo fuel (n / 10)

/-- The decimal digits of `n`, least significant first (empty for `0`);
`n` itself is always enough fuel. -/
def natDigitsRev (n : Nat) : List Nat := natDigitsRevGo n n

theorem natDigitsRevGo_congr :
    ∀ n fuel₁ fuel₂, n ≤ fuel₁ → n ≤ fuel₂ →
      natDigitsRevGo fuel₁ n = natDigitsRevGo fuel₂ n := by
  intro n
  induction n using Nat.strong_induction_on with
  | _ n ih =>
    intro fuel₁ fuel₂ h1 h2
    match fuel₁, fuel₂ with
    | 0, 0 => rfl
    | 0, f + 1 =>
      have : n = 0 := Nat.le_zero.mp h1
      subst this; rfl
    | f + 1, 0 =>
      have : n = 0 := Nat.le_zero.mp h2
      subst this; rfl
    | f₁ + 1, f₂ + 1 =>
      show (if n = 0 then [] else (n % 10) :: natDigitsRevGo f₁ (n / 10)) =
        (if n = 0 then [] else (n % 10) :: natDigitsRevGo f₂ (n / 10))
      by_cases hn : n = 0
      · rw [if_pos hn, if_pos hn]
      · rw [if_neg hn, if_neg hn]
        have hlt : n / 10 < n := Nat.div_lt_self (Nat.pos_of_ne_zero hn) (by omega)
        rw [ih (n / 10) hlt f₁ f₂ (by omega) (by omega)]

/-- The defining recurrence of `natDigitsRev`. -/
theorem natDigitsRev_eq (n : Nat) :
    natDigitsRev n = if n = 0 then [] else (n % 10) :: natDigitsRev (n / 10) := by
  by_cases hn : n = 0
  · subst hn; rfl
  · rw [if_neg hn]
    unfold natDigitsRev
    rcases n with _ | m
    · exact absurd rfl hn
    · show (if m + 1 = 0 then [] else ((m + 1) % 10) :: natDigitsRevGo m ((m + 1) / 10)) = _
      rw [if_neg hn]
      have hlt : (m + 1) / 10 < m + 1 := Nat.div_lt_self (by omega) (by omega)
      rw [natDigitsRevGo_congr ((m + 1) / 10) m ((m + 1) / 10) (by omega) (by omega)]

/-- Model of Python `str(n)` for a non-negative integer: its decimal
representation. -/
def pyNatStr (n : Nat) : PyStr :=
  if n = 0 then ['0'] else ((natDigitsRev n).map digitChar).reverse

/-- Model of Python `str(i)` for an `int`. -/
def pyIntStr (i : Int) : PyStr :=
  if i < 0 then '-' :: pyNatStr i.natAbs else pyNatStr i.natAbs

/-- Model of Python `int(s)` with the `ValueError` case mapped to `none`
(optional sign, then decimal digits, surrounding whitespace allowed). -/
def pyIntParse (s : PyStr) : Option Int :=
  match pyStrip s with
  | '-' :: ds => if !ds.isEmpty && ds.all Char.isDigit then some (-(pyParseDigits ds : Int)) else none
  | '+' :: ds => if !ds.isEmpty && ds.all Char.isDigit then some (pyParseDigits ds : Int) else none
  | ds => if !ds.isEmpty && ds.all Char.isDigit then some (pyParseDigits ds : Int) else none

/-- Model of Python `sep.join(parts)`. -/
def pyJoin (sep : PyStr) (parts : List PyStr) : PyStr :=
  match parts with
  | [] => []
  | p :: ps => p ++ (ps.map (fun q => sep ++ q)).flatten

/-- Python `a in b` on strings: contiguous-substring test. -/
def pySubstring (a b : PyStr) : Bool := decide (a <:+: b)

/- ### Basic facts about the string primitives -/

theorem char_toNat_inj {a b : Char} (h : a.toNat = b.toNat) : a = b := by
  rw [← Char.ofNat_toNat a, h, Char.ofNat_toNat]

theorem char_toNat_ofNat {n : Nat} (h : n.isValidChar) : (Char.ofNat n).toNat = n := by
  simp only [Char.ofNat, h, dite_true, Char.ofNatAux, Char.toNat]
  simp [UInt32.toNat]

theorem isValidChar_of_lt {n : Nat} (h : n < 0xd800) : n.isValidChar := Or.inl h

/-- The map `Char.toLower`, written as a plain conditional on `toNat`. -/
theorem toLower_eq_ite (c : Char) :
    Char.toLower c = if 65 ≤ c.toNat ∧ c.toNat ≤ 90 then Char.ofNat (c.toNat + 32) else c := rfl

/-- The map `Char.toUpper`, written as a plain conditional on `toNat`. -/
theorem toUpper_eq_ite (c : Char) :
    Char.toUpper c = if 97 ≤ c.toNat ∧ c.toNat ≤ 122 then Char.ofNat (c.toNat - 32) else c := rfl

/-- Value of `Char.toNat` after `Char.toLower`, arithmetically. -/
theorem toNat_toLower (c : Char) :
    (Char.toLower c).toNat = if 65 ≤ c.toNat ∧ c.toNat ≤ 90 then c.toNat + 32 else c.toNat := by
  rw [toLower_eq_ite]
  by_cases h : 65 ≤ c.toNat ∧ c.toNat ≤ 90
  · rw [if_pos h, if_pos h, char_toNat_ofNat (isValidChar_of_lt (by omega))]
  · rw [if_neg h, if_neg h]

/-- Value of `Char.toNat` after `Char.toUpper`, arithmetically. -/
theorem toNat_toUpper (c : Char) :
    (Char.toUpper c).toNat = if 97 ≤ c.toNat ∧ c.toNat ≤ 122 then c.toNat - 32 else c.toNat := by
  rw [toUpper_eq_ite]
  by_cases h : 97 ≤ c.toNat ∧ c.toNat ≤ 122
  · rw [if_pos h, if_pos h, char_toNat_ofNat (isValidChar_of_lt (by omega))]
  · rw [if_neg h, if_neg h]

/-- Whitespace characters have `toNat` in `{9, 10, 13, 32}`. -/
theorem isWhitespace_iff_toNat (c : Char) :
    c.isWhitespace = true ↔ c.toNat = 32 ∨ c.toNat = 9 ∨ c.toNat = 13 ∨ c.toNat = 10 := by
  simp only [Char.isWhitespace, Bool.or_eq_true, decide_eq_true_eq]
  constructor
  · rintro (((h | h) | h) | h) <;> subst h <;> decide
  · intro h
    rcases h with h | h | h | h
    · exact Or.inl (Or.inl (Or.inl (char_toNat_inj (h.trans (by decide)))))
    · exact Or.inl (Or.inl (Or.inr (char_toNat_inj (h.trans (by decide)))))
    · exact Or.inl (Or.inr (char_toNat_inj (h.trans (by decide))))
    · exact Or.inr (char_toNat_inj (h.trans (by decide)))

/-- Case mapping does not create or destroy whitespace. -/
theorem isWhitespace_toUpper (c : Char) : (Char.toUpper c).isWhitespace = c.isWhitespace := by
  have h2 := toNat_toUpper c
  rcases hu : (Char.toUpper c).isWhitespace <;> rcases hc : c.isWhitespace <;> try rfl
  · -- upper not whitespace but c whitespace: impossible
    have hn := (isWhitespace_iff_toNat c).mp hc
    have hne : (Char.toUpper c).isWhitespace = true := by
      rw [isWhitespace_iff_toNat]
      split_ifs at h2 <;> omega
    rw [hu] at hne; cases hne
  · -- upper whitespace but c not: impossible
    have hn := (isWhitespace_iff_toNat (Char.toUpper c)).mp hu
    have hne : c.isWhitespace = true := by
      rw [isWhitespace_iff_toNat]
      split_ifs at h2 <;> omega
    rw [hc] at hne; cases hne

theorem isWhitespace_toLower (c : Char) : (Char.toLower c).isWhitespace = c.isWhitespace := by
  have h2 := toNat_toLower c
  rcases hu : (Char.toLower c).isWhitespace <;> rcases hc : c.isWhitespace <;> try rfl
  · have hn := (isWhitespace_iff_toNat c).mp hc
    have hne : (Char.toLower c).isWhitespace = true := by
      rw [isWhitespace_iff_toNat]
      split_ifs at h2 <;> omega
    rw [hu] at hne; cases hne
  · have hn := (isWhitespace_iff_toNat (Char.toLower c)).mp hu
    have hne : c.isWhitespace = true := by
      rw [isWhitespace_iff_toNat]
      split_ifs at h2 <;> omega
    rw [hc] at hne; cases hne

/-- Lowering, then uppering, then lowering is the same as lowering once. -/
theorem toLower_toUpper_toLower (c : Char) :
    Char.toLower (Char.toUpper (Char.toLower c)) = Char.toLower c := by
  apply char_toNat_inj
  have h1 := toNat_toLower c
  have h2 := toNat_toUpper (Char.toLower c)
  have h3 := toNat_toLower (Char.toUpper (Char.toLower c))
  split_ifs at h1 h2 h3 <;> omega

/-- A string with no whitespace at either end is fixed by `pyStrip`. -/
theorem pyStrip_eq_self {s : PyStr}
    (h1 : s.dropWhile Char.isWhitespace = s)
    (h2 : s.reverse.dropWhile Char.isWhitespace = s.reverse) : pyStrip s = s := by
  unfold pyStrip
  rw [h1, h2, List.reverse_reverse]

theorem dropWhile_idem (p : Char → Bool) (s : List Char) :
    (s.dropWhile p).dropWhile p = s.dropWhile p := by
  induction s with
  | nil => rfl
  | cons a t ih =>
    by_cases hp : p a
    · rw [List.dropWhile_cons_of_pos hp]; exact ih
    · rw [List.dropWhile_cons_of_neg hp, List.dropWhile_cons_of_neg hp]

/-- A list with no leading satisfying element is fixed by `dropWhile`; prefixes
of such a list are too. -/
theorem dropWhile_eq_self_of_prefix {p : Char → Bool} {d e : List Char}
    (hd : d.dropWhile p = d) (he : e <+: d) : e.dropWhile p = e := by
  rcases he with ⟨t, ht⟩
  rcases e with _ | ⟨a, r⟩
  · rfl
  · rw [List.dropWhile_cons]
    have ha : p a = false := by
      by_cases hw : p a
      · rw [← ht, List.cons_append, List.dropWhile_cons, if_pos hw] at hd
        have hlen := congrArg List.length hd
        have hsub := (List.dropWhile_sublist (l := r ++ t) p).length_le
        simp only [List.length_cons] at hlen
        omega
      · simpa using hw
    rw [ha]
    simp

/-- Stripping is idempotent. -/
theorem pyStrip_idem (s : PyStr) : pyStrip (pyStrip s) = pyStrip s := by
  unfold pyStrip
  generalize hd : s.dropWhile Char.isWhitespace = d
  have hd2 : d.dropWhile Char.isWhitespace = d := by rw [← hd]; exact dropWhile_idem _ _
  -- the trimmed string is a prefix of `d`, and `d` has no leading whitespace
  have hpre : (d.reverse.dropWhile Char.isWhitespace).reverse <+: d := by
    have h1 := List.dropWhile_suffix (l := d.reverse) Char.isWhitespace
    have h2 := List.reverse_prefix.mpr h1
    simpa using h2
  have hlead := dropWhile_eq_self_of_prefix hd2 hpre
  rw [hlead, List.reverse_reverse, dropWhile_idem]

/- ### Decimal representation round-trips through parsing -/

theorem natDigitsRev_lt_ten (n : Nat) : ∀ d ∈ natDigitsRev n, d < 10 := by
  induction n using Nat.strong_induction_on with
  | _ n ih =>
    intro d hd
    rw [natDigitsRev_eq] at hd
    split at hd
    · cases hd
    · rename_i h
      rw [List.mem_cons] at hd
      rcases hd with hd | hd
      · subst hd; exact Nat.mod_lt _ (by omega)
      · exact ih (n / 10) (Nat.div_lt_self (Nat.pos_of_ne_zero h) (by omega)) d hd

/-- Value of a digit list, least significant digit first. -/
def digitsVal : List Nat → Nat
  | [] => 0
  | d :: ds => d + 10 * digitsVal ds

theorem digitsVal_natDigitsRev (n : Nat) : digitsVal (natDigitsRev n) = n := by
  induction n using Nat.strong_induction_on with
  | _ n ih =>
    rw [natDigitsRev_eq]
    split
    · rename_i h; simp [digitsVal, h]
    · rename_i h
      rw [digitsVal, ih (n / 10) (Nat.div_lt_self (Nat.pos_of_ne_zero h) (by omega))]
      omega

theorem digitChar_toNat {d : Nat} (h : d < 10) : (digitChar d).toNat = 48 + d := by
  unfold digitChar
  exact char_toNat_ofNat (isValidChar_of_lt (by omega))

theorem digitChar_isDigit {d : Nat} (h : d < 10) : (digitChar d).isDigit = true := by
  interval_cases d <;> decide

theorem digitChar_not_whitespace {d : Nat} (h : d < 10) : (digitChar d).isWhitespace = false := by
  interval_cases d <;> decide

theorem pyParseDigits_append_digit (s : PyStr) (c : Char) :
    pyParseDigits (s ++ [c]) = pyParseDigits s * 10 + (c.toNat - 48) := by
  unfold pyParseDigits
  rw [List.foldl_append]
  rfl

theorem pyParseDigits_reverse_map (ds : List Nat) (h : ∀ d ∈ ds, d < 10) :
    pyParseDigits ((ds.map digitChar).reverse) = digitsVal ds := by
  induction ds with
  | nil => rfl
  | cons d t ih =>
    rw [List.map_cons, List.reverse_cons, pyParseDigits_append_digit,
      ih (fun x hx => h x (List.mem_cons_of_mem _ hx)),
      digitChar_toNat (h d (List.mem_cons_self _ _)), digitsVal]
    omega

/-- Parsing the decimal representation of `n` gives back `n`. -/
theorem pyParseDigits_pyNatStr (n : Nat) : pyParseDigits (pyNatStr n) = n := by
  unfold pyNatStr
  split
  · rename_i h; subst h; rfl
  · rw [pyParseDigits_reverse_map _ (natDigitsRev_lt_ten n), digitsVal_natDigitsRev]

theorem pyNatStr_ne_nil (n : Nat) : pyNatStr n ≠ [] := by
  unfold pyNatStr
  split
  · simp
  · rename_i h
    intro hcon
    rw [← List.length_eq_zero] at hcon
    rw [List.length_reverse, List.length_map] at hcon
    rw [List.length_eq_zero] at hcon
    rw [natDigitsRev_eq] at hcon
    simp [h] at hcon

theorem pyNatStr_all_digits (n : Nat) : (pyNatStr n).all Char.isDigit = true := by
  unfold pyNatStr
  split
  · decide
  · rw [List.all_eq_true]
    intro c hc
    rw [List.mem_reverse, List.mem_map] at hc
    obtain ⟨d, hd, rfl⟩ := hc
    exact digitChar_isDigit (natDigitsRev_lt_ten n d hd)

theorem pyIsDigit_pyNatStr (n : Nat) : pyIsDigit (pyNatStr n) = true := by
  unfold pyIsDigit
  rw [pyNatStr_all_digits, Bool.and_true]
  rcases hs : pyNatStr n with _ | ⟨a, t⟩
  · exact absurd hs (pyNatStr_ne_nil n)
  · rfl

theorem pyStrip_eq_self_of_no_ws {s : PyStr} (h : ∀ c ∈ s, c.isWhitespace = false) :
    pyStrip s = s := by
  apply pyStrip_eq_self
  · rcases s with _ | ⟨a, t⟩
    · rfl
    · rw [List.dropWhile_cons, h a (List.mem_cons_self _ _)]
      simp
  · rcases hs : s.reverse with _ | ⟨a, t⟩
    · rfl
    · rw [List.dropWhile_cons]
      have : a ∈ s := by
        rw [← List.mem_reverse, hs]; exact List.mem_cons_self _ _
      rw [h a this]
      simp

theorem digit_not_whitespace {c : Char} (h : c.isDigit = true) : c.isWhitespace = false := by
  unfold Char.isDigit at h
  rw [Bool.and_eq_true, decide_eq_true_eq, decide_eq_true_eq] at h
  rcases hw : c.isWhitespace
  · rfl
  · have := (isWhitespace_iff_toNat c).mp hw
    have h48 : 48 ≤ c.toNat := h.1
    have h57 : c.toNat ≤ 57 := h.2
    omega

theorem pyStrip_pyNatStr (n : Nat) : pyStrip (pyNatStr n) = pyNatStr n := by
  apply pyStrip_eq_self_of_no_ws
  intro c hc
  have hall := pyNatStr_all_digits n
  rw [List.all_eq_true] at hall
  exact digit_not_whitespace (hall c hc)

/-!
### Record Store, simple schema (`src/data_manager.py`)

A CSV row is modelled by its six canonical columns
(`REQUIRED_HEADERS = ['Word', 'Jyutping', 'English', 'Questioned', 'Correct', 'Type']`).
`save_csv` writes exactly these columns (`extrasaction='ignore'`) and overwrites
every one of them from the in-memory word, so unrecognized columns of the
original row never reach the output and are not modelled.
-/

/-- One data-file row of the simple schema (a `csv.DictReader` row restricted
to the required headers). -/
structure Row where
  word : PyStr
  jyutping : PyStr
  english : PyStr
  questioned : PyStr
  correct : PyStr
  type : PyStr
deriving DecidableEq, Repr

/-- One in-memory item of the simple schema (the dict built by
`DataManager.load_csv`). -/
structure Word where
  char : PyStr
  jyut : PyStr
  eng : PyStr
  q : Nat
  c : Nat
  type : PyStr
  /-- the `_row` back-reference -/
  row : Row
deriving DecidableEq, Repr

namespace DataManager

/-- Model of `int(v.strip()) if v and v.strip().isdigit() else 0` — the permissive
counter parse of `DataManager.load_csv`. -/
def parseCounter (v : PyStr) : Nat :=
  if !v.isEmpty && pyIsDigit (pyStrip v) then pyParseDigits (pyStrip v) else 0

/-- The body of the `for row in reader` loop of `DataManager.load_csv`:
`none` means the row is skipped. -/
def loadWord (r : Row) : Option Word :=
  let word := if r.word.isEmpty then [] else pyStrip r.word
  if word.isEmpty then none
  else some
    { char := word
      jyut := if r.jyutping.isEmpty then [] else pyStrip r.jyutping
      eng := if r.english.isEmpty then [] else pyLower (pyStrip r.english)
      q := parseCounter r.questioned
      c := parseCounter r.correct
      type := pyStrip r.type
      row := r }

/-- Model of `DataManager.load_csv` on an existing, well-formed file: the resulting
`self.words` list. -/
def load_csv (rows : List Row) : List Word :=
  rows.filterMap loadWord

/-- One output row of `DataManager.save_csv`: the row is rebuilt from `_row`
restricted to the required headers, and then every required column is
overwritten from the word dict (`English` upper-cased, counters via `str`). -/
def saveWord (w : Word) : Row :=
  { word := w.char
    jyutping := w.jyut
    english := pyUpper w.eng
    questioned := pyNatStr w.q
    correct := pyNatStr w.c
    type := w.type }

/-- Model of `DataManager.save_csv`: the rows written back to the file. -/
def save_csv (ws : List Word) : List Row :=
  ws.map saveWord

end DataManager

/- ### Round-trip law for the simple-schema Record Store (spec §8) -/

theorem if_isEmpty_strip (s : PyStr) :
    (if s.isEmpty then ([] : PyStr) else pyStrip s) = pyStrip s := by
  cases s <;> rfl

theorem if_isEmpty_lower_strip (s : PyStr) :
    (if s.isEmpty then ([] : PyStr) else pyLower (pyStrip s)) = pyLower (pyStrip s) := by
  cases s <;> rfl

theorem parseCounter_pyNatStr (n : Nat) : DataManager.parseCounter (pyNatStr n) = n := by
  unfold DataManager.parseCounter
  rw [pyStrip_pyNatStr, pyIsDigit_pyNatStr]
  rcases hs : pyNatStr n with _ | ⟨a, t⟩
  · exact absurd hs (pyNatStr_ne_nil n)
  · rw [← hs]
    simp only [hs, List.isEmpty_cons, Bool.not_false, Bool.true_and, if_true]
    rw [← hs, pyParseDigits_pyNatStr]

/-- Stripping commutes with character-wise maps that preserve whitespace. -/
theorem pyStrip_map_comm (f : Char → Char) (hf : ∀ c, (f c).isWhitespace = c.isWhitespace)
    (s : PyStr) : pyStrip (s.map f) = (pyStrip s).map f := by
  unfold pyStrip
  have hfe : (Char.isWhitespace ∘ f) = Char.isWhitespace := funext hf
  rw [List.dropWhile_map, hfe, ← List.map_reverse, List.dropWhile_map, hfe, ← List.map_reverse]

theorem pyStrip_pyUpper (s : PyStr) : pyStrip (pyUpper s) = pyUpper (pyStrip s) :=
  pyStrip_map_comm Char.toUpper isWhitespace_toUpper s

theorem pyStrip_pyLower (s : PyStr) : pyStrip (pyLower s) = pyLower (pyStrip s) :=
  pyStrip_map_comm Char.toLower isWhitespace_toLower s

theorem pyLower_pyUpper_pyLower (s : PyStr) : pyLower (pyUpper (pyLower s)) = pyLower s := by
  unfold pyLower pyUpper
  rw [List.map_map, List.map_map]
  exact List.map_congr_left (fun a _ => toLower_toUpper_toLower a)

namespace DataManager

/-- The fields of a loaded item that the round-trip law talks about:
identifying fields and the two counters (everything except the `_row`
back-reference). -/
def wordData (w : Word) : PyStr × PyStr × PyStr × Nat × Nat × PyStr :=
  (w.char, w.jyut, w.eng, w.q, w.c, w.type)

theorem loadWord_inv {r : Row} {w : Word} (h : loadWord r = some w) :
    w.char = pyStrip r.word ∧ w.char ≠ [] ∧ w.jyut = pyStrip r.jyutping ∧
    w.eng = pyLower (pyStrip r.english) ∧ w.q = parseCounter r.questioned ∧
    w.c = parseCounter r.correct ∧ w.type = pyStrip r.type := by
  unfold loadWord at h
  simp only [if_isEmpty_strip, if_isEmpty_lower_strip] at h
  split at h
  · cases h
  · rename_i hne
    rw [Option.some.injEq] at h
    subst h
    rw [List.isEmpty_iff] at hne
    exact ⟨rfl, hne, rfl, rfl, rfl, rfl, rfl⟩

/-- Re-loading a saved word succeeds and restores all loaded fields. -/
theorem loadWord_saveWord {r : Row} {w : Word} (h : loadWord r = some w) :
    ∃ w', loadWord (saveWord w) = some w' ∧ wordData w' = wordData w := by
  obtain ⟨hc, hcne, hj, he, hq, hcc, ht⟩ := loadWord_inv h
  have hcs : pyStrip w.char = w.char := by rw [hc, pyStrip_idem]
  have hjs : pyStrip w.jyut = w.jyut := by rw [hj, pyStrip_idem]
  have hts : pyStrip w.type = w.type := by rw [ht, pyStrip_idem]
  have hes : pyStrip (pyUpper w.eng) = pyUpper w.eng := by
    rw [pyStrip_pyUpper, he, pyStrip_pyLower, pyStrip_idem]
  have heng : pyLower (pyStrip (pyUpper w.eng)) = w.eng := by
    rw [hes, he, pyLower_pyUpper_pyLower]
  have hload : loadWord (saveWord w) = some
      { char := w.char, jyut := w.jyut, eng := w.eng, q := w.q, c := w.c,
        type := w.type, row := saveWord w } := by
    unfold loadWord
    simp only [saveWord, if_isEmpty_strip, if_isEmpty_lower_strip]
    rw [hcs, hjs, heng, parseCounter_pyNatStr, parseCounter_pyNatStr, hts]
    rw [if_neg (by simp [List.isEmpty_iff, hcne])]
  exact ⟨_, hload, rfl⟩

/-- C3: the spec §8 round-trip law for the simple schema — load, then save,
then load again restores every loaded item's counters and identifying fields
(the English field is stored lower-cased and written back upper-cased, and the
second load lower-cases it again, so the in-memory fields agree exactly). -/
theorem load_save_load (rows : List Row) :
    (load_csv (save_csv (load_csv rows))).map wordData = (load_csv rows).map wordData := by
  unfold load_csv save_csv
  rw [List.filterMap_map]
  induction rows with
  | nil => rfl
  | cons r rs ih =>
    rcases hr : loadWord r with _ | w
    · simp only [List.filterMap_cons, hr, ih]
    · obtain ⟨w', hw', hdata⟩ := loadWord_saveWord hr
      simp only [List.filterMap_cons, hr, Function.comp_apply, hw', List.map_cons, hdata, ih]

end DataManager

/-!
### Selection & Scoring Engine, simple schema (`src/card_logic.py`)
-/

/-- The quiz mode chosen by `get_random_card` (`random.choice(['char', 'jyut', 'eng'])`):
the field that stays revealed. -/
inductive Mode where
  | char
  | jyut
  | eng
deriving DecidableEq, Repr

/-- The `user_inputs` dict of `CardLogic.check_answer` (`.get(key, '')` makes
missing keys the empty string). -/
structure Inputs where
  char : PyStr
  jyut : PyStr
  eng : PyStr
deriving DecidableEq, Repr

namespace CardLogic

/-- The `expected` component of one loop entry of `CardLogic.check_answer`:
a plain string (Chinese, Jyutping) or the list of `/`-alternatives (English). -/
inductive Expected where
  | str (s : PyStr)
  | list (l : List PyStr)
deriving DecidableEq, Repr, Inhabited

/-- Python `answer in expected`: substring test on a string, membership on a
list. -/
def expMatch (answer : PyStr) (e : Expected) : Bool :=
  match e with
  | .str s => pySubstring answer s
  | .list l => decide (answer ∈ l)

/-- The interpolated text after `expected` in the failure message
(`expected if type(expected) is str else ' / '.join(expected)`). -/
def expText (e : Expected) : PyStr :=
  match e with
  | .str s => s
  | .list l => pyJoin (' ' :: '/' :: [' ']) l

/-- The message line appended on a match. -/
def okLine (tested : PyStr) : PyStr := tested ++ (' ' :: ':' :: ' ' :: "Correct!".toList)

/-- The message line appended on a mismatch. -/
def failLine (tested : PyStr) (e : Expected) : PyStr :=
  tested ++ (' ' :: ':' :: ' ' :: "expected ".toList) ++ expText e

/-- The three loop entries of `CardLogic.check_answer`, in order; the mode's
own field is the `(None, None, None)` placeholder, modelled as `none` (the
loop `continue`s on it, which is the same as filtering it out). -/
def entries (cur : Word) (mode : Mode) (inp : Inputs) : List (PyStr × PyStr × Expected) :=
  [if mode ≠ .char then some ("Chinese".toList, pyStrip inp.char, Expected.str cur.char) else none,
   if mode ≠ .jyut then
     some ("Jyutping".toList, pyLower (pyStrip inp.jyut), Expected.str (pyLower cur.jyut))
   else none,
   if mode ≠ .eng then
     some ("English".toList, pyLower (pyStrip inp.eng),
       Expected.list ((cur.eng.splitOn '/').map pyStrip))
   else none].filterMap id

/-- The `for tested, answer, expected in [...]` loop: returns the `correct`
flag and the accumulated message lines (`break` on the first mismatch). -/
def runChecks : List (PyStr × PyStr × Expected) → Bool × List PyStr
  | [] => (true, [])
  | (tested, answer, e) :: rest =>
    if expMatch answer e then
      let r := runChecks rest
      (r.1, okLine tested :: r.2)
    else
      (false, [failLine tested e])

/-- The update of the current word on a correct answer
(`self.current['c'] += 1` plus the `_row` write-back). -/
def bumpC (w : Word) : Word :=
  { w with c := w.c + 1, row := { w.row with correct := pyNatStr (w.c + 1) } }

/-- Model of `CardLogic.check_answer`: returns `(is_correct, message)` and the updated
current word (the correct counter is bumped only when correct). `none` for
`self.current` models the "No card loaded" branch. -/
def check_answer (cur : Option Word) (mode : Mode) (inp : Inputs) :
    (Bool × PyStr) × Option Word :=
  match cur with
  | none => ((false, "No card loaded".toList), none)
  | some w =>
    let r := runChecks (entries w mode inp)
    let msg := pyJoin ['\n'] ([] :: r.2)
    if r.1 then (((true : Bool), msg), some (bumpC w))
    else ((false, msg), some w)

/-- The update of the selected word (`self.current['q'] += 1` plus the
`_row` write-back). -/
def bumpQ (w : Word) : Word :=
  { w with q := w.q + 1, row := { w.row with questioned := pyNatStr (w.q + 1) } }

/-- Model of `CardLogic.get_random_card`: the random index (`random.randint(0, len-1)`)
and mode (`random.choice`) are oracle parameters.  Returns the
`{'card': …, 'mode': …}` result and the updated word list (the questioned
counter of the selected card is incremented, with the `_row` write-back). -/
def get_random_card (words : List Word) (idx : Nat) (mode : Mode) :
    Option (Word × Mode) × List Word :=
  if words.isEmpty then (none, words)
  else
    match words[idx]? with
    | none => (none, words)  -- randint(0, len(words)-1) always yields idx < length
    | some w =>
      let w' := bumpQ w
      (some (w', mode), words.set idx w')

end CardLogic

/- ### Properties of the simple-schema answer check (C1) -/

namespace CardLogic

theorem runChecks_fst_true_iff (es : List (PyStr × PyStr × Expected)) :
    (runChecks es).1 = true ↔ ∀ x ∈ es, expMatch x.2.1 x.2.2 = true := by
  induction es with
  | nil => simp [runChecks]
  | cons x rest ih =>
    obtain ⟨t, a, e⟩ := x
    by_cases hm : expMatch a e
    · simp only [runChecks]
      rw [if_pos hm]
      simp only [List.mem_cons, forall_eq_or_imp]
      rw [ih]
      simp [hm]
    · simp only [runChecks]
      rw [if_neg hm]
      simp only [List.mem_cons, forall_eq_or_imp]
      constructor
      · intro hcon; simp at hcon
      · intro hcon; exact absurd hcon.1 hm

/-- If some entry fails, `runChecks` stops at the first failing entry: the
result is `false` and the message lines are the ok-lines of the passing
prefix followed by exactly that entry's failure line. -/
theorem runChecks_first_fail (es : List (PyStr × PyStr × Expected))
    (t : PyStr) (a : PyStr) (e : Expected)
    (h : es.find? (fun x => !expMatch x.2.1 x.2.2) = some (t, a, e)) :
    runChecks es =
      (false, (es.takeWhile (fun x => expMatch x.2.1 x.2.2)).map (fun x => okLine x.1)
        ++ [failLine t e]) := by
  induction es with
  | nil => cases h
  | cons x rest ih =>
    obtain ⟨t', a', e'⟩ := x
    by_cases hm : expMatch a' e'
    · rw [List.find?_cons_of_neg _ (by simpa using hm)] at h
      have hrest := ih h
      rw [@List.takeWhile_cons_of_pos _ (fun x => expMatch x.2.1 x.2.2) (t', a', e') rest hm]
      simp only [runChecks]
      rw [if_pos hm, hrest]
      simp
    · rw [List.find?_cons_of_pos _ (by simpa using hm)] at h
      rw [Option.some.injEq] at h
      injection h with h1 h23
      injection h23 with h2 h3
      subst h1; subst h2; subst h3
      rw [@List.takeWhile_cons_of_neg _ (fun x => expMatch x.2.1 x.2.2) (t', a', e') rest
        (by simpa using hm)]
      simp only [runChecks]
      rw [if_neg (by simpa using hm)]
      simp

theorem check_answer_fst (w : Word) (mode : Mode) (inp : Inputs) :
    (check_answer (some w) mode inp).1.1 = (runChecks (entries w mode inp)).1 := by
  unfold check_answer
  by_cases h : (runChecks (entries w mode inp)).1 <;> simp [h]

theorem check_answer_msg (w : Word) (mode : Mode) (inp : Inputs) :
    (check_answer (some w) mode inp).1.2 =
      pyJoin ['\n'] ([] :: (runChecks (entries w mode inp)).2) := by
  unfold check_answer
  by_cases h : (runChecks (entries w mode inp)).1 <;> simp [h]

theorem expMatch_str_iff (a s : PyStr) : expMatch a (.str s) = true ↔ a <:+: s := by
  simp [expMatch, pySubstring]

theorem expMatch_list_iff (a : PyStr) (l : List PyStr) :
    expMatch a (.list l) = true ↔ a ∈ l := by
  simp [expMatch]

/-- The per-field pass conditions, as propositions over the item and input. -/
theorem entries_all_match_iff (w : Word) (mode : Mode) (inp : Inputs) :
    (∀ x ∈ entries w mode inp, expMatch x.2.1 x.2.2 = true) ↔
      ((mode ≠ .char → pyStrip inp.char <:+: w.char) ∧
       (mode ≠ .jyut → pyLower (pyStrip inp.jyut) <:+: pyLower w.jyut) ∧
       (mode ≠ .eng → pyLower (pyStrip inp.eng) ∈ (w.eng.splitOn '/').map pyStrip)) := by
  cases mode <;>
    simp [entries, expMatch, pySubstring, List.filterMap_cons, List.filterMap_nil]

end CardLogic

/-- C1 (amended): simple-schema answer validation.  For every current item,
mode and user input, the round is scored correct iff every non-prompted field
passes its check, where the Chinese field accepts the trimmed input iff it is
a contiguous substring of the expected value, the Jyutping field accepts the
trimmed input iff it is case-insensitively a contiguous substring of the
expected value, and the English (translation) field accepts the trimmed,
lower-cased input iff it equals one of the `/`-delimited, trimmed
alternatives; and on the first failing field the evaluation stops: the
message consists of the ok-lines of the preceding passing fields followed by
exactly one line naming the failing field and its expected value. -/
theorem claim_C1_simple_validation (w : Word) (mode : Mode) (inp : Inputs) :
    ((CardLogic.check_answer (some w) mode inp).1.1 = true ↔
      ((mode ≠ .char → pyStrip inp.char <:+: w.char) ∧
       (mode ≠ .jyut → pyLower (pyStrip inp.jyut) <:+: pyLower w.jyut) ∧
       (mode ≠ .eng → pyLower (pyStrip inp.eng) ∈ (w.eng.splitOn '/').map pyStrip)))
    ∧ (∀ t a e,
        (CardLogic.entries w mode inp).find?
            (fun x => !CardLogic.expMatch x.2.1 x.2.2) = some (t, a, e) →
        (CardLogic.check_answer (some w) mode inp).1.1 = false ∧
        (CardLogic.check_answer (some w) mode inp).1.2 =
          pyJoin ['\n'] ([] ::
            (((CardLogic.entries w mode inp).takeWhile
                (fun x => CardLogic.expMatch x.2.1 x.2.2)).map
                  (fun x => CardLogic.okLine x.1)
              ++ [CardLogic.failLine t e]))) := by
  constructor
  · rw [CardLogic.check_answer_fst, CardLogic.runChecks_fst_true_iff,
      CardLogic.entries_all_match_iff]
  · intro t a e hfind
    have hrun := CardLogic.runChecks_first_fail _ t a e hfind
    rw [CardLogic.check_answer_fst, CardLogic.check_answer_msg, hrun]
    exact ⟨rfl, rfl⟩

/-- C1 counterexample: with the spec §8 item and `eng` as the prompted mode,
the Chinese input `你` differs from the expected `你好` even after trimming
and case-folding, yet the round is scored correct — so the non-prompted
fields are not checked by case-insensitive exact match. -/
theorem claim_C1_counterexample :
    (CardLogic.check_answer
        (some { char := ('你' :: '好' :: []), jyut := ("nei5 hou2".toList),
                eng := ("hello/hi".toList), q := 0, c := 0, type := [],
                row := ⟨[], [], [], [], [], []⟩ })
        .eng ⟨('你' :: []), ("nei5 hou2".toList), []⟩).1.1 = true
    ∧ pyLower (pyStrip ('你' :: [])) ≠ pyLower ('你' :: '好' :: []) := by
  constructor
  · decide
  · decide

/-- C1 witness: instantiating `claim_C1_simple_validation` on the spec §8
item, mode `char`, inputs Jyutping `nei5 hou2` / English `bye`: the round is
scored incorrect and the message names the English field and its expected
alternatives. -/
theorem claim_C1_simple_validation_witness :
    (CardLogic.check_answer
        (some { char := ('你' :: '好' :: []), jyut := ("nei5 hou2".toList),
                eng := ("hello/hi".toList), q := 3, c := 1, type := [],
                row := ⟨[], [], [], [], [], []⟩ })
        .char ⟨[], ("nei5 hou2".toList), ("bye".toList)⟩).1.1 = false
    ∧ (CardLogic.check_answer
        (some { char := ('你' :: '好' :: []), jyut := ("nei5 hou2".toList),
                eng := ("hello/hi".toList), q := 3, c := 1, type := [],
                row := ⟨[], [], [], [], [], []⟩ })
        .char ⟨[], ("nei5 hou2".toList), ("bye".toList)⟩).1.2 =
      ("\nJyutping : Correct!\nEnglish : expected hello / hi".toList) := by
  have h := (claim_C1_simple_validation
      { char := ('你' :: '好' :: []), jyut := ("nei5 hou2".toList),
        eng := ("hello/hi".toList), q := 3, c := 1, type := [],
        row := ⟨[], [], [], [], [], []⟩ }
      .char ⟨[], ("nei5 hou2".toList), ("bye".toList)⟩).2
      ("English".toList) (pyLower (pyStrip ("bye".toList)))
      (CardLogic.Expected.list ((("hello/hi".toList).splitOn '/').map pyStrip))
      (by decide)
  refine ⟨h.1, ?_⟩
  rw [h.2]
  decide

/-!
### QA schema (`src/qa/card_logic_qa.py`, `src/qa/data_manager_qa.py`)
-/

/-- The six canonical QA keys
(`ChineseQ, JyutpingQ, EnglishQ, ChineseA, JyutpingA, EnglishA`). -/
inductive QAKey where
  | chineseQ
  | jyutpingQ
  | englishQ
  | chineseA
  | jyutpingA
  | englishA
deriving DecidableEq, Repr, Inhabited

/-- The canonical key as the Python string. -/
def QAKey.name : QAKey → PyStr
  | .chineseQ => ("ChineseQ".toList)
  | .jyutpingQ => ("JyutpingQ".toList)
  | .englishQ => ("EnglishQ".toList)
  | .chineseA => ("ChineseA".toList)
  | .jyutpingA => ("JyutpingA".toList)
  | .englishA => ("EnglishA".toList)

/-- A QA card (the dict built by `DataManagerQA.load_csv`): the six canonical
fields, the two counters (`int(..)` in Python, hence `Int`), and the `_row`
back-reference (`none` when the card was built without one). -/
structure QACard where
  chineseQ : PyStr
  jyutpingQ : PyStr
  englishQ : PyStr
  chineseA : PyStr
  jyutpingA : PyStr
  englishA : PyStr
  questioned : Int
  correct : Int
  row : Option (List (PyStr × PyStr))
deriving DecidableEq, Repr, Inhabited

/-- Lookup `card.get(k)` for the canonical keys (the six fields are always present
on a loaded card). -/
def QACard.get (w : QACard) : QAKey → PyStr
  | .chineseQ => w.chineseQ
  | .jyutpingQ => w.jyutpingQ
  | .englishQ => w.englishQ
  | .chineseA => w.chineseA
  | .jyutpingA => w.jyutpingA
  | .englishA => w.englishA

/-- Python dict assignment `d[k] = v` on an association-list model: replace
the value if the key exists, otherwise append the pair. -/
def dictSet (d : List (PyStr × PyStr)) (k v : PyStr) : List (PyStr × PyStr) :=
  if d.any (fun p => p.1 = k) then d.map (fun p => if p.1 = k then (k, v) else p)
  else d ++ [(k, v)]

/-- Python `d.get(k)` on the association-list model. -/
def dictGet (d : List (PyStr × PyStr)) (k : PyStr) : Option PyStr :=
  (d.find? (fun p => p.1 = k)).map (fun p => p.2)

namespace CardLogicQA

/-- The list `self.keys`, in order. -/
def keys : List QAKey :=
  [.chineseQ, .jyutpingQ, .englishQ, .chineseA, .jyutpingA, .englishA]

/-- The default prompt weights of `CardLogicQA.__init__`:
`ChineseQ` gets weight 1, every other key 0. -/
def defaultWeights : QAKey → ℚ :=
  fun k => if k = .chineseQ then 1 else 0

/-- The per-field acceptance test of `CardLogicQA.check_answer`: empty
expected value auto-passes; otherwise case-insensitive exact match or
substring containment in either direction. -/
def fieldOk (w : QACard) (ans : QAKey → Option PyStr) (key : QAKey) : Bool :=
  let expected := pyStrip (w.get key)
  let user := pyStrip ((ans key).getD [])
  let exp_low := pyLower expected
  let user_low := pyLower user
  if expected.isEmpty then true
  else user_low = exp_low || pySubstring exp_low user_low || pySubstring user_low exp_low

/-- The failure-message fragment `f"{key}: expected '{expected}'"`. -/
def failText (w : QACard) (key : QAKey) : PyStr :=
  QAKey.name key ++ (':' :: ' ' :: "expected ".toList) ++ ('\'' :: []) ++
    pyStrip (w.get key) ++ ('\'' :: [])

/-- The update of the current card on a fully correct answer
(`self.current['correct'] += 1` plus the `_row` write-back). -/
def bumpCorrect (w : QACard) : QACard :=
  { w with correct := w.correct + 1,
           row := w.row.map (fun d => dictSet d ("Correct".toList) (pyIntStr (w.correct + 1))) }

/-- Model of `CardLogicQA.check_answer`: returns `(correct, message)` and the updated
current card.  `none` for `self.current` models the "No card loaded" branch. -/
def check_answer (cur : Option QACard) (user_answers : QAKey → Option PyStr)
    (expected_keys : List QAKey) : (Bool × PyStr) × Option QACard :=
  match cur with
  | none => ((false, "No card loaded".toList), none)
  | some w =>
    let failures := expected_keys.filterMap
      (fun key => if fieldOk w user_answers key then none else some (failText w key))
    if failures.isEmpty then ((true, "All correct".toList), some (bumpCorrect w))
    else ((false, pyJoin (';' :: ' ' :: []) failures), some w)

/-- The weighted candidate list of `CardLogicQA.get_random_card`: the keys
with content on this card and positive configured weight, with their
weights. -/
def weightedCandidates (card : QACard) (wts : QAKey → ℚ) : List (QAKey × ℚ) :=
  keys.filterMap
    (fun k => if !(card.get k).isEmpty then
        (if 0 < wts k then some (k, wts k) else none)
      else none)

/-- The uniform fallback candidate list: every key with content, weight 1. -/
def fallbackCandidates (card : QACard) : List (QAKey × ℚ) :=
  (keys.filter (fun k => !(card.get k).isEmpty)).map (fun k => (k, (1 : ℚ)))

/-- One attempt of the prompt-selection loop of `CardLogicQA.get_random_card`:
build the weighted candidate list over non-empty fields with positive weight,
fall back to the uniform list over all non-empty fields, and draw (the draw
of `random.choices` is modelled by the oracle `r2` selecting index
`r2 % length`); `none` when the card has no eligible prompt field. -/
def tryPick (card : QACard) (wts : QAKey → ℚ) (r2 : Nat) : Option QAKey :=
  let cand := if (weightedCandidates card wts).isEmpty then fallbackCandidates card
    else weightedCandidates card wts
  match cand with
  | [] => none
  | c :: cs => some (((c :: cs).getD (r2 % (c :: cs).length) c).1)

/-- Outcome of the card-selection loop. -/
inductive SelOutcome where
  | picked (idx : Nat) (key : QAKey)
  | exhausted (lastIdx : Option Nat)
deriving DecidableEq, Repr

/-- The `while attempts < 10` loop of `CardLogicQA.get_random_card`:
`remaining = 10 - attempts` counts down, `lastIdx` tracks the index
`self.current` points to.  The oracle `rand` supplies, per attempt, the
`random.randint` draw (reduced mod the list length) and the
`random.choices` draw. -/
def selectLoop (cards : List QACard) (wts : QAKey → ℚ) (rand : Nat → Nat × Nat) :
    Nat → Nat → Option Nat → SelOutcome
  | _, 0, lastIdx => .exhausted lastIdx
  | attempts, remaining + 1, lastIdx =>
    let idx := (rand attempts).1 % cards.length
    match cards[idx]? with
    | none => .exhausted lastIdx  -- unreachable: `idx < cards.length` whenever `cards ≠ []`
    | some card =>
      match tryPick card wts (rand attempts).2 with
      | some key => .picked idx key
      | none => selectLoop cards wts rand (attempts + 1) remaining (some idx)

/-- The update of the selected card
(`self.current['questioned'] += 1` plus the `_row` write-back). -/
def bumpQuestioned (w : QACard) : QACard :=
  { w with questioned := w.questioned + 1,
           row := w.row.map
             (fun d => dictSet d ("Questioned".toList) (pyIntStr (w.questioned + 1))) }

/-- The `{'card': …, 'prompt_key': …, 'expected_keys': …}` result dict. -/
structure QASelect where
  card : QACard
  prompt_key : QAKey
  expected_keys : List QAKey
deriving DecidableEq, Repr

/-- Result of `CardLogicQA.get_random_card`: a normal return (`none` models
Python `None`), or an uncaught `UnboundLocalError` (`prompt_key` referenced
before assignment).  The error carries the card list as already mutated when
the exception is raised: the `self.current['questioned'] += 1` line runs
before the unassigned `prompt_key` is used, so the last examined card's
questioned counter has been incremented. -/
inductive QAResult where
  | ok (res : Option (QASelect × List QACard))
  | nameError (cards : List QACard)
deriving DecidableEq, Repr

/-- Model of `CardLogicQA.get_random_card`.  After ten failed attempts the loop exits
with `prompt_key` never assigned; `self.current` is then the last examined
card — a non-empty dict, hence truthy — so `if not self.current` does not
return, the `self.current['questioned'] += 1` line still increments that
card's questioned counter, and only then does the use of `prompt_key` raise
`UnboundLocalError` (`nameError`, carrying the mutated card list).
`exhausted none` (loop body never ran) cannot occur with a positive attempt
bound but is mapped to the `self.current is None` return of `None`. -/
def get_random_card (cards : List QACard) (wts : QAKey → ℚ) (rand : Nat → Nat × Nat) :
    QAResult :=
  if cards.isEmpty then .ok none
  else
    match selectLoop cards wts rand 0 10 none with
    | .exhausted none => .ok none
    | .exhausted (some i) =>
      match cards[i]? with
      | none => .nameError cards  -- unreachable: the loop only records in-range indices
      | some card => .nameError (cards.set i (bumpQuestioned card))
    | .picked idx key =>
      match cards[idx]? with
      | none => .ok none  -- unreachable: picked indices are in range
      | some card =>
        let card' := bumpQuestioned card
        .ok (some ({ card := card', prompt_key := key,
                     expected_keys := keys.filter (fun k => k ≠ key) },
                   cards.set idx card'))

end CardLogicQA

namespace DataManagerQA

/-- Model of `int(row.get(col) or 0)` with `ValueError` caught and mapped to 0. -/
def pyIntOr0 (v : Option PyStr) : Int :=
  match v with
  | none => 0
  | some s => if s.isEmpty then 0 else (pyIntParse s).getD 0

/-- Model of `DataManagerQA._find_field`: first header containing the keyword,
case-insensitively. -/
def find_field (fieldnames : List PyStr) (keyword : PyStr) : Option PyStr :=
  fieldnames.find? (fun f => !f.isEmpty && pySubstring (pyLower keyword) (pyLower f))

/-- The card dict built for one CSV row (canonical fields resolved through
the header mapping, counters parsed permissively, `_row` kept). -/
def buildCard (fieldnames : List PyStr) (row : List (PyStr × PyStr)) : QACard :=
  let get_k := fun (k : QAKey) =>
    match find_field fieldnames (QAKey.name k) with
    | none => []
    | some col => pyStrip ((dictGet row col).getD [])
  { chineseQ := get_k .chineseQ
    jyutpingQ := get_k .jyutpingQ
    englishQ := get_k .englishQ
    chineseA := get_k .chineseA
    jyutpingA := get_k .jyutpingA
    englishA := get_k .englishA
    questioned := pyIntOr0 (dictGet row ("Questioned".toList))
    correct := pyIntOr0 (dictGet row ("Correct".toList))
    row := some row }

/-- The body of the row loop of `DataManagerQA.load_csv`: rows whose three
question fields are all empty are skipped. -/
def loadRow (fieldnames : List PyStr) (row : List (PyStr × PyStr)) : Option QACard :=
  let card := buildCard fieldnames row
  if card.chineseQ.isEmpty && card.jyutpingQ.isEmpty && card.englishQ.isEmpty then none
  else some card

/-- Model of `DataManagerQA.load_csv` on an existing, well-formed file. -/
def load_csv (fieldnames : List PyStr) (rows : List (List (PyStr × PyStr))) :
    List QACard :=
  rows.filterMap (loadRow fieldnames)

/-- A QA CSV file: its header and its rows (each a header→value mapping). -/
structure QACsvFile where
  fieldnames : List PyStr
  rows : List (List (PyStr × PyStr))

/-- Model of `DataManagerQA.load_csv` including the file-existence check: on a missing
file it prints "not found" and returns `False`, creating nothing; on an
existing (well-formed) file it parses the rows.  Result:
`(return value, self.cards, file afterwards)`. -/
def load_csv_fs (file : Option QACsvFile) : Bool × List QACard × Option QACsvFile :=
  match file with
  | none => (false, [], none)
  | some f => (true, load_csv f.fieldnames f.rows, some f)

end DataManagerQA

namespace DataManager

/-- The canonical simple-schema header row (`REQUIRED_HEADERS`). -/
def REQUIRED_HEADERS : List PyStr :=
  [("Word".toList), ("Jyutping".toList), ("English".toList),
   ("Questioned".toList), ("Correct".toList), ("Type".toList)]

/-- A simple-schema CSV file: header plus well-formed body rows. -/
structure CsvFile where
  header : List PyStr
  rows : List Row

/-- Model of `DataManager.create_default_csv`: a file holding only the canonical
header row. -/
def create_default_csv : CsvFile :=
  { header := REQUIRED_HEADERS, rows := [] }

/-- Model of `DataManager.load_csv` including the file-existence check: on a missing
file it creates the default header-only file and returns `True` with no
words loaded; on an existing (well-formed) file it parses the rows.
Result: `(return value, self.words, file afterwards)`. -/
def load_csv_fs (file : Option CsvFile) : Bool × List Word × Option CsvFile :=
  match file with
  | none => (true, [], some create_default_csv)
  | some f => (true, load_csv f.rows, some f)

end DataManager

/- ### Properties of the QA answer check (C2, C9) -/

theorem filterMap_if_eq_filter_map {α β : Type} (p : α → Bool) (f : α → β) (l : List α) :
    l.filterMap (fun x => if p x then none else some (f x)) =
      (l.filter (fun x => !p x)).map f := by
  induction l with
  | nil => rfl
  | cons a t ih =>
    by_cases hp : p a
    · rw [List.filterMap_cons, List.filter_cons]
      simp [hp, ih]
    · rw [List.filterMap_cons, List.filter_cons]
      simp [hp, ih]

namespace CardLogicQA

/-- The per-field acceptance test, as a proposition. -/
theorem fieldOk_iff (w : QACard) (ans : QAKey → Option PyStr) (k : QAKey) :
    fieldOk w ans k = true ↔
      (pyStrip (w.get k) = [] ∨
       pyLower (pyStrip ((ans k).getD [])) = pyLower (pyStrip (w.get k)) ∨
       pyLower (pyStrip (w.get k)) <:+: pyLower (pyStrip ((ans k).getD [])) ∨
       pyLower (pyStrip ((ans k).getD [])) <:+: pyLower (pyStrip (w.get k))) := by
  simp only [fieldOk]
  by_cases he : (pyStrip (w.get k)).isEmpty
  · rw [List.isEmpty_iff] at he
    simp [he]
  · have hne : pyStrip (w.get k) ≠ [] := by
      intro hh
      rw [hh] at he
      exact he rfl
    rw [if_neg (by simpa using he)]
    simp [pySubstring, hne, or_assoc]

theorem check_answer_correct_iff (w : QACard) (ans : QAKey → Option PyStr)
    (eks : List QAKey) :
    (check_answer (some w) ans eks).1.1 = true ↔ ∀ k ∈ eks, fieldOk w ans k = true := by
  simp only [check_answer]
  rw [filterMap_if_eq_filter_map]
  by_cases hf : ((eks.filter (fun k => !fieldOk w ans k)).map (failText w)).isEmpty
  · rw [if_pos hf]
    simp only [true_iff]
    rw [List.isEmpty_iff, List.map_eq_nil_iff, List.filter_eq_nil_iff] at hf
    intro k hk
    have := hf k hk
    simpa using this
  · rw [if_neg hf]
    simp only [Bool.false_eq_true, false_iff]
    intro hall
    rw [Bool.not_eq_true, List.isEmpty_eq_false] at hf
    obtain ⟨x, hx⟩ := List.exists_mem_of_ne_nil _ hf
    rw [List.mem_map] at hx
    obtain ⟨k, hk, _⟩ := hx
    rw [List.mem_filter] at hk
    have hkt := hall k hk.1
    rw [hkt] at hk
    simp at hk

theorem check_answer_failure_msg (w : QACard) (ans : QAKey → Option PyStr)
    (eks : List QAKey) (h : (check_answer (some w) ans eks).1.1 = false) :
    (check_answer (some w) ans eks).1.2 =
      pyJoin (';' :: ' ' :: [])
        ((eks.filter (fun k => !fieldOk w ans k)).map (failText w)) := by
  simp only [check_answer] at h ⊢
  rw [filterMap_if_eq_filter_map] at h ⊢
  by_cases hf : ((eks.filter (fun k => !fieldOk w ans k)).map (failText w)).isEmpty
  · rw [if_pos hf] at h
    cases h
  · rw [if_neg hf]

end CardLogicQA

/-- C2: QA-schema answer validation.  For every current card, answer mapping
and list of expected keys: a field passes iff its (trimmed) expected value is
empty, or the trimmed user input case-insensitively equals it, or either
lower-cased string contains the other as a contiguous substring; the round is
correct iff every expected field passes; and on failure the message collects
every failing field — in order, each with its expected value — not only the
first. -/
theorem claim_C2_qa_validation (w : QACard) (ans : QAKey → Option PyStr)
    (eks : List QAKey) :
    ((CardLogicQA.check_answer (some w) ans eks).1.1 = true ↔
      ∀ k ∈ eks,
        pyStrip (w.get k) = [] ∨
        pyLower (pyStrip ((ans k).getD [])) = pyLower (pyStrip (w.get k)) ∨
        pyLower (pyStrip (w.get k)) <:+: pyLower (pyStrip ((ans k).getD [])) ∨
        pyLower (pyStrip ((ans k).getD [])) <:+: pyLower (pyStrip (w.get k)))
    ∧ ((CardLogicQA.check_answer (some w) ans eks).1.1 = false →
       (CardLogicQA.check_answer (some w) ans eks).1.2 =
         pyJoin (';' :: ' ' :: [])
           ((eks.filter (fun k => !CardLogicQA.fieldOk w ans k)).map
             (CardLogicQA.failText w))) := by
  constructor
  · rw [CardLogicQA.check_answer_correct_iff]
    constructor
    · intro h k hk
      exact (CardLogicQA.fieldOk_iff w ans k).mp (h k hk)
    · intro h k hk
      exact (CardLogicQA.fieldOk_iff w ans k).mpr (h k hk)
  · exact CardLogicQA.check_answer_failure_msg w ans eks

/-- C2 witness: card with `ChineseQ = 你好`, `EnglishQ = what`,
`EnglishA = hello`, answers `EnglishQ ↦ nope`, everything else `hat`:
the round is incorrect and the message lists all three failing fields. -/
theorem claim_C2_qa_validation_witness :
    (CardLogicQA.check_answer
        (some { chineseQ := ('你' :: '好' :: []), jyutpingQ := [], englishQ := ("what".toList),
                chineseA := [], jyutpingA := [], englishA := ("hello".toList),
                questioned := 0, correct := 0, row := none })
        (fun k => if k = .englishQ then some ("nope".toList) else some ("hat".toList))
        CardLogicQA.keys).1.1 = false
    ∧ (CardLogicQA.check_answer
        (some { chineseQ := ('你' :: '好' :: []), jyutpingQ := [], englishQ := ("what".toList),
                chineseA := [], jyutpingA := [], englishA := ("hello".toList),
                questioned := 0, correct := 0, row := none })
        (fun k => if k = .englishQ then some ("nope".toList) else some ("hat".toList))
        CardLogicQA.keys).1.2 =
      (("ChineseQ: expected '".toList) ++ ('你' :: '好' :: []) ++
        ("'; EnglishQ: expected 'what'; EnglishA: expected 'hello'".toList)) := by
  have h := claim_C2_qa_validation
    { chineseQ := ('你' :: '好' :: []), jyutpingQ := [], englishQ := ("what".toList),
      chineseA := [], jyutpingA := [], englishA := ("hello".toList),
      questioned := 0, correct := 0, row := none }
    (fun k => if k = .englishQ then some ("nope".toList) else some ("hat".toList))
    CardLogicQA.keys
  have hfalse : (CardLogicQA.check_answer
      (some { chineseQ := ('你' :: '好' :: []), jyutpingQ := [], englishQ := ("what".toList),
              chineseA := [], jyutpingA := [], englishA := ("hello".toList),
              questioned := 0, correct := 0, row := none })
      (fun k => if k = .englishQ then some ("nope".toList) else some ("hat".toList))
      CardLogicQA.keys).1.1 = false := by
    rcases hb : (CardLogicQA.check_answer
        (some { chineseQ := ('你' :: '好' :: []), jyutpingQ := [], englishQ := ("what".toList),
                chineseA := [], jyutpingA := [], englishA := ("hello".toList),
                questioned := 0, correct := 0, row := none })
        (fun k => if k = .englishQ then some ("nope".toList) else some ("hat".toList))
        CardLogicQA.keys).1.1
    · rfl
    · exfalso
      have hall := h.1.mp hb
      have := hall .chineseQ (by decide)
      revert this
      decide
  refine ⟨hfalse, ?_⟩
  rw [h.2 hfalse]
  decide

/-- C9: submitting an empty (or all-empty-after-trimming) answer mapping is
scored fully correct — the empty user input is a substring of every non-empty
expected value, and empty expected values auto-pass — and the card's correct
counter is incremented. -/
theorem claim_C9_empty_answers (w : QACard) (ans : QAKey → Option PyStr)
    (eks : List QAKey) (h : ∀ k, pyStrip ((ans k).getD []) = []) :
    CardLogicQA.check_answer (some w) ans eks =
      ((true, "All correct".toList), some (CardLogicQA.bumpCorrect w))
    ∧ (CardLogicQA.bumpCorrect w).correct = w.correct + 1 := by
  constructor
  · simp only [CardLogicQA.check_answer]
    have hok : ∀ k, CardLogicQA.fieldOk w ans k = true := by
      intro k
      rw [CardLogicQA.fieldOk_iff]
      by_cases he : pyStrip (w.get k) = []
      · exact Or.inl he
      · refine Or.inr (Or.inr (Or.inr ?_))
        rw [h k]
        exact List.nil_infix
    have : (eks.filterMap (fun key =>
        if CardLogicQA.fieldOk w ans key then none
        else some (CardLogicQA.failText w key))) = [] := by
      rw [List.filterMap_eq_nil_iff]
      intro k hk
      rw [hok k]
      rfl
    rw [this]
    rfl
  · rfl

/-- C9 witness: a card with non-empty and empty fields, the everywhere-`none`
answer mapping, all six keys expected: scored correct, counter goes 0 → 1. -/
theorem claim_C9_empty_answers_witness :
    CardLogicQA.check_answer
        (some { chineseQ := ('你' :: '好' :: []), jyutpingQ := [], englishQ := ("what".toList),
                chineseA := [], jyutpingA := [], englishA := ("hello".toList),
                questioned := 2, correct := 0, row := none })
        (fun _ => none) CardLogicQA.keys =
      ((true, "All correct".toList),
       some (CardLogicQA.bumpCorrect
        { chineseQ := ('你' :: '好' :: []), jyutpingQ := [], englishQ := ("what".toList),
          chineseA := [], jyutpingA := [], englishA := ("hello".toList),
          questioned := 2, correct := 0, row := none }))
    ∧ (CardLogicQA.bumpCorrect
        { chineseQ := ('你' :: '好' :: []), jyutpingQ := [], englishQ := ("what".toList),
          chineseA := [], jyutpingA := [], englishA := ("hello".toList),
          questioned := 2, correct := 0, row := none }).correct = 0 + 1 :=
  claim_C9_empty_answers
    { chineseQ := ('你' :: '好' :: []), jyutpingQ := [], englishQ := ("what".toList),
      chineseA := [], jyutpingA := [], englishA := ("hello".toList),
      questioned := 2, correct := 0, row := none }
    (fun _ => none) CardLogicQA.keys (fun _ => rfl)


/- ### Counter monotonicity (C4) -/

/-- A `picked` outcome of the selection loop always carries an in-range
index. -/
theorem selectLoop_picked_lt (cards : List QACard) (wts : QAKey → ℚ)
    (rand : Nat → Nat × Nat) :
    ∀ remaining attempts last idx key,
      CardLogicQA.selectLoop cards wts rand attempts remaining last = .picked idx key →
      idx < cards.length := by
  intro remaining
  induction remaining with
  | zero =>
    intro attempts last idx key hsel
    simp [CardLogicQA.selectLoop] at hsel
  | succ n ih =>
    intro attempts last idx key hsel
    simp only [CardLogicQA.selectLoop] at hsel
    rcases hc : cards[(rand attempts).1 % cards.length]? with _ | card
    · simp only [hc] at hsel
      simp at hsel
    · simp only [hc] at hsel
      rcases ht : CardLogicQA.tryPick card wts (rand attempts).2 with _ | key'
      · simp only [ht] at hsel
        exact ih (attempts + 1) (some _) idx key hsel
      · simp only [ht] at hsel
        injection hsel with hidx hkey
        subst hidx
        rcases List.getElem?_eq_some_iff.mp hc with ⟨hb, _⟩
        exact hb

/-- An `exhausted (some i)` outcome of the selection loop always records an
in-range index (the index of the last examined card). -/
theorem selectLoop_exhausted_some_lt (cards : List QACard) (wts : QAKey → ℚ)
    (rand : Nat → Nat × Nat) (hlen : 0 < cards.length) :
    ∀ remaining attempts last i,
      (∀ j, last = some j → j < cards.length) →
      CardLogicQA.selectLoop cards wts rand attempts remaining last = .exhausted (some i) →
      i < cards.length := by
  intro remaining
  induction remaining with
  | zero =>
    intro attempts last i hinv hsel
    simp only [CardLogicQA.selectLoop] at hsel
    injection hsel with hlast
    exact hinv i hlast
  | succ n ih =>
    intro attempts last i hinv hsel
    simp only [CardLogicQA.selectLoop] at hsel
    have hidx : (rand attempts).1 % cards.length < cards.length := Nat.mod_lt _ hlen
    rw [List.getElem?_eq_getElem hidx] at hsel
    rcases ht : CardLogicQA.tryPick cards[(rand attempts).1 % cards.length] wts
        (rand attempts).2 with _ | key
    · simp only [ht] at hsel
      refine ih (attempts + 1) (some ((rand attempts).1 % cards.length)) i ?_ hsel
      intro j hj
      injection hj with hj
      subst hj
      exact hidx
    · simp only [ht] at hsel
      cases hsel

/-- C4 (amended): counter monotonicity in both schema variants.  Every
successful selection increments the questioned counter of exactly the
returned item by exactly 1 and leaves every other item untouched; a
validation call increments the current item's correct counter by exactly 1
iff it returns correct, and never touches the questioned counter; no
operation decreases a counter.  The one exception to "otherwise unchanged":
the QA selection's exhaustion path increments the questioned counter of the
last examined (never returned) card by exactly 1 before raising, touching
nothing else. -/
theorem claim_C4_counters :
    (∀ (words : List Word) (idx : Nat) (mode : Mode) (h : idx < words.length),
      ∃ w', CardLogic.get_random_card words idx mode = (some (w', mode), words.set idx w') ∧
        w'.q = (words.get ⟨idx, h⟩).q + 1 ∧ w'.c = (words.get ⟨idx, h⟩).c ∧
        ∀ j, j ≠ idx → (words.set idx w')[j]? = words[j]?)
    ∧ (∀ (w : Word) (mode : Mode) (inp : Inputs),
      ∃ w', (CardLogic.check_answer (some w) mode inp).2 = some w' ∧
        w'.q = w.q ∧
        w'.c = w.c + (if (CardLogic.check_answer (some w) mode inp).1.1 then 1 else 0))
    ∧ (∀ (cards : List QACard) (wts : QAKey → ℚ) (rand : Nat → Nat × Nat) sel cards',
      CardLogicQA.get_random_card cards wts rand = .ok (some (sel, cards')) →
      ∃ idx, ∃ hlt : idx < cards.length,
        sel.card.questioned = (cards.get ⟨idx, hlt⟩).questioned + 1 ∧
        sel.card.correct = (cards.get ⟨idx, hlt⟩).correct ∧
        cards' = cards.set idx sel.card ∧
        ∀ j, j ≠ idx → cards'[j]? = cards[j]?)
    ∧ (∀ (cards : List QACard) (wts : QAKey → ℚ) (rand : Nat → Nat × Nat) cards',
      CardLogicQA.get_random_card cards wts rand = .nameError cards' →
      ∃ i, ∃ hlt : i < cards.length,
        cards' = cards.set i (CardLogicQA.bumpQuestioned (cards.get ⟨i, hlt⟩)) ∧
        (CardLogicQA.bumpQuestioned (cards.get ⟨i, hlt⟩)).questioned =
          (cards.get ⟨i, hlt⟩).questioned + 1 ∧
        (CardLogicQA.bumpQuestioned (cards.get ⟨i, hlt⟩)).correct =
          (cards.get ⟨i, hlt⟩).correct ∧
        ∀ j, j ≠ i → cards'[j]? = cards[j]?)
    ∧ (∀ (w : QACard) (ans : QAKey → Option PyStr) (eks : List QAKey),
      ∃ w', (CardLogicQA.check_answer (some w) ans eks).2 = some w' ∧
        w'.questioned = w.questioned ∧
        w'.correct = w.correct +
          (if (CardLogicQA.check_answer (some w) ans eks).1.1 then 1 else 0)) := by
  refine ⟨?_, ?_, ?_, ?_, ?_⟩
  · -- simple-schema selection
    intro words idx mode h
    have hne : words.isEmpty = false := by
      rw [List.isEmpty_eq_false]
      intro hh
      subst hh
      simp at h
    refine ⟨CardLogic.bumpQ (words.get ⟨idx, h⟩), ?_, rfl, rfl, ?_⟩
    · simp only [CardLogic.get_random_card, hne, Bool.false_eq_true, if_false]
      rw [List.getElem?_eq_getElem h]
      rfl
    · intro j hj
      exact List.getElem?_set_ne (Ne.symm hj)
  · -- simple-schema validation
    intro w mode inp
    have hfst := CardLogic.check_answer_fst w mode inp
    rcases hb : (CardLogic.runChecks (CardLogic.entries w mode inp)).1
    · refine ⟨w, ?_, rfl, ?_⟩
      · simp [CardLogic.check_answer, hb]
      · rw [hfst, hb]
        simp
    · refine ⟨CardLogic.bumpC w, ?_, rfl, ?_⟩
      · simp [CardLogic.check_answer, hb]
      · rw [hfst, hb]
        simp [CardLogic.bumpC]
  · -- QA selection
    intro cards wts rand sel cards' h
    simp only [CardLogicQA.get_random_card] at h
    rcases he : cards.isEmpty
    · simp only [he, Bool.false_eq_true, if_false] at h
      cases hloop : CardLogicQA.selectLoop cards wts rand 0 10 none with
      | picked idx key =>
        simp only [hloop] at h
        have hlt := selectLoop_picked_lt cards wts rand 10 0 none idx key hloop
        rw [List.getElem?_eq_getElem hlt] at h
        simp only [CardLogicQA.QAResult.ok.injEq, Option.some.injEq, Prod.mk.injEq] at h
        obtain ⟨hsel, hcards⟩ := h
        refine ⟨idx, hlt, ?_, ?_, ?_, ?_⟩
        · rw [← hsel]
          simp [CardLogicQA.bumpQuestioned, List.get_eq_getElem]
        · rw [← hsel]
          simp [CardLogicQA.bumpQuestioned, List.get_eq_getElem]
        · rw [← hcards, ← hsel]
        · intro j hj
          rw [← hcards]
          exact List.getElem?_set_ne (Ne.symm hj)
      | exhausted last =>
        rcases last with _ | i
        · simp only [hloop] at h
          simp at h
        · simp only [hloop] at h
          rcases hci : cards[i]? with _ | card <;> simp only [hci] at h <;> simp at h
    · simp only [he, if_true] at h
      simp at h
  · -- QA selection, exhaustion (raising) path
    intro cards wts rand cards' h
    simp only [CardLogicQA.get_random_card] at h
    rcases he : cards.isEmpty
    · simp only [he, Bool.false_eq_true, if_false] at h
      have hlen : 0 < cards.length := by
        rw [List.isEmpty_eq_false] at he
        exact List.length_pos.mpr he
      cases hloop : CardLogicQA.selectLoop cards wts rand 0 10 none with
      | picked idx key =>
        simp only [hloop] at h
        have hlt := selectLoop_picked_lt cards wts rand 10 0 none idx key hloop
        rw [List.getElem?_eq_getElem hlt] at h
        simp at h
      | exhausted last =>
        rcases last with _ | i
        · simp only [hloop] at h
          simp at h
        · simp only [hloop] at h
          have hlt : i < cards.length :=
            selectLoop_exhausted_some_lt cards wts rand hlen 10 0 none i
              (fun j hj => by cases hj) hloop
          rw [List.getElem?_eq_getElem hlt] at h
          simp only [CardLogicQA.QAResult.nameError.injEq] at h
          refine ⟨i, hlt, ?_, ?_, ?_, ?_⟩
          · rw [← h, List.get_eq_getElem]
          · simp [CardLogicQA.bumpQuestioned]
          · simp [CardLogicQA.bumpQuestioned]
          · intro j hj
            rw [← h]
            exact List.getElem?_set_ne (Ne.symm hj)
    · simp only [he, if_true] at h
      simp at h
  · -- QA validation
    intro w ans eks
    rcases hb : eks.filterMap (fun key =>
        if CardLogicQA.fieldOk w ans key then none
        else some (CardLogicQA.failText w key)) with _ | ⟨f, fs⟩
    · refine ⟨CardLogicQA.bumpCorrect w, ?_, rfl, ?_⟩
      · simp [CardLogicQA.check_answer, hb]
      · have : (CardLogicQA.check_answer (some w) ans eks).1.1 = true := by
          simp [CardLogicQA.check_answer, hb]
        rw [this]
        simp [CardLogicQA.bumpCorrect]
    · refine ⟨w, ?_, rfl, ?_⟩
      · simp [CardLogicQA.check_answer, hb]
      · have : (CardLogicQA.check_answer (some w) ans eks).1.1 = false := by
          simp [CardLogicQA.check_answer, hb]
        rw [this]
        simp

/- ### Load-time discard invariant (C7) and prompt availability (C10) -/

/-- Every card kept by the QA loader has at least one non-empty question
field. -/
theorem load_csv_qa_mem {fieldnames : List PyStr} {rows : List (List (PyStr × PyStr))}
    {c : QACard} (h : c ∈ DataManagerQA.load_csv fieldnames rows) :
    c.chineseQ ≠ [] ∨ c.jyutpingQ ≠ [] ∨ c.englishQ ≠ [] := by
  rw [DataManagerQA.load_csv, List.mem_filterMap] at h
  obtain ⟨row, _, hrow⟩ := h
  simp only [DataManagerQA.loadRow] at hrow
  by_cases hcond : ((DataManagerQA.buildCard fieldnames row).chineseQ.isEmpty &&
      (DataManagerQA.buildCard fieldnames row).jyutpingQ.isEmpty &&
      (DataManagerQA.buildCard fieldnames row).englishQ.isEmpty)
  · rw [if_pos hcond] at hrow
    cases hrow
  · rw [if_neg hcond] at hrow
    rw [Option.some.injEq] at hrow
    subst hrow
    by_cases h1 : (DataManagerQA.buildCard fieldnames row).chineseQ = []
    · by_cases h2 : (DataManagerQA.buildCard fieldnames row).jyutpingQ = []
      · by_cases h3 : (DataManagerQA.buildCard fieldnames row).englishQ = []
        · exact absurd (by simp [h1, h2, h3]) hcond
        · exact Or.inr (Or.inr h3)
      · exact Or.inr (Or.inl h2)
    · exact Or.inl h1

/-- A card with question content always yields a prompt key on the first
try. -/
theorem tryPick_isSome (card : QACard) (wts : QAKey → ℚ) (r2 : Nat)
    (h : card.chineseQ ≠ [] ∨ card.jyutpingQ ≠ [] ∨ card.englishQ ≠ []) :
    ∃ key, CardLogicQA.tryPick card wts r2 = some key := by
  simp only [CardLogicQA.tryPick]
  rcases hw : CardLogicQA.weightedCandidates card wts with _ | ⟨c, cs⟩
  · rcases hf : CardLogicQA.fallbackCandidates card with _ | ⟨d, ds⟩
    · exfalso
      rw [CardLogicQA.fallbackCandidates, List.map_eq_nil_iff, List.filter_eq_nil_iff] at hf
      have hex : ∃ k0, k0 ∈ CardLogicQA.keys ∧ card.get k0 ≠ [] := by
        rcases h with h | h | h
        · exact ⟨.chineseQ, by decide, h⟩
        · exact ⟨.jyutpingQ, by decide, h⟩
        · exact ⟨.englishQ, by decide, h⟩
      obtain ⟨k0, hk0mem, hk0⟩ := hex
      have hcon := hf k0 hk0mem
      have hemp : (card.get k0).isEmpty = true := by
        rcases hb : (card.get k0).isEmpty
        · exact absurd (by simp [hb]) hcon
        · rfl
      exact hk0 (List.isEmpty_iff.mp hemp)
    · exact ⟨_, rfl⟩
  · exact ⟨_, rfl⟩

/-- C7: load-time discard invariant.  A simple-schema row whose `Word` field
is empty after trimming is skipped; consequently every loaded simple item has
a non-empty character field.  A QA row whose three question fields are all
empty (after trimming) is skipped; consequently every loaded QA card has at
least one non-empty question field. -/
theorem claim_C7_load_discard :
    (∀ r : Row, pyStrip r.word = [] → DataManager.loadWord r = none)
    ∧ (∀ (rows : List Row) (w : Word), w ∈ DataManager.load_csv rows → w.char ≠ [])
    ∧ (∀ (fieldnames : List PyStr) (row : List (PyStr × PyStr)),
        (DataManagerQA.buildCard fieldnames row).chineseQ = [] →
        (DataManagerQA.buildCard fieldnames row).jyutpingQ = [] →
        (DataManagerQA.buildCard fieldnames row).englishQ = [] →
        DataManagerQA.loadRow fieldnames row = none)
    ∧ (∀ (fieldnames : List PyStr) (rows : List (List (PyStr × PyStr))) (c : QACard),
        c ∈ DataManagerQA.load_csv fieldnames rows →
        c.chineseQ ≠ [] ∨ c.jyutpingQ ≠ [] ∨ c.englishQ ≠ []) := by
  refine ⟨?_, ?_, ?_, ?_⟩
  · intro r h
    unfold DataManager.loadWord
    simp [if_isEmpty_strip, h]
  · intro rows w hw
    rw [DataManager.load_csv, List.mem_filterMap] at hw
    obtain ⟨r, _, hr⟩ := hw
    exact (DataManager.loadWord_inv hr).2.1
  · intro fieldnames row h1 h2 h3
    simp only [DataManagerQA.loadRow, h1, h2, h3]
    rfl
  · intro fieldnames rows c hc
    exact load_csv_qa_mem hc


/-- C7 witness: a row with a whitespace-only `Word` field is skipped by the
simple loader, and a QA row with no question content (here: no headers at
all) is skipped by the QA loader. -/
theorem claim_C7_load_discard_witness :
    DataManager.loadWord ⟨(' ' :: ' ' :: []), ("a".toList), ("b".toList), ['1'], ['0'], []⟩
      = none
    ∧ DataManagerQA.loadRow [] [] = none := by
  constructor
  · exact claim_C7_load_discard.1
      ⟨(' ' :: ' ' :: []), ("a".toList), ("b".toList), ['1'], ['0'], []⟩ (by decide)
  · exact claim_C7_load_discard.2.2.1 [] [] (by decide) (by decide) (by decide)

/-- C10: on every non-empty collection produced by the QA loader (with the
default prompt weights of `CardLogicQA.__init__`), the selection loop picks a
card and a prompt on its very first attempt — the 10-retry exhaustion branch
is unreachable, because every loaded card has a non-empty question field, so
the fallback candidate list is never empty — and `get_random_card` returns
the bumped chosen card, a prompt key, and the five remaining keys as
expected keys. -/
theorem claim_C10_first_attempt (fieldnames : List PyStr)
    (rows : List (List (PyStr × PyStr))) (rand : Nat → Nat × Nat)
    (hne : DataManagerQA.load_csv fieldnames rows ≠ []) :
    ∃ key card',
      CardLogicQA.selectLoop (DataManagerQA.load_csv fieldnames rows)
          CardLogicQA.defaultWeights rand 0 10 none =
        .picked ((rand 0).1 % (DataManagerQA.load_csv fieldnames rows).length) key
      ∧ CardLogicQA.get_random_card (DataManagerQA.load_csv fieldnames rows)
          CardLogicQA.defaultWeights rand =
        .ok (some ({ card := card', prompt_key := key,
                     expected_keys := CardLogicQA.keys.filter (fun k => k ≠ key) },
                   (DataManagerQA.load_csv fieldnames rows).set
                     ((rand 0).1 % (DataManagerQA.load_csv fieldnames rows).length) card')) := by
  have hlen : 0 < (DataManagerQA.load_csv fieldnames rows).length :=
    List.length_pos.mpr hne
  have hidx : (rand 0).1 % (DataManagerQA.load_csv fieldnames rows).length <
      (DataManagerQA.load_csv fieldnames rows).length := Nat.mod_lt _ hlen
  have hcard := List.getElem?_eq_getElem hidx
  have hmem : (DataManagerQA.load_csv fieldnames rows)[(rand 0).1 %
      (DataManagerQA.load_csv fieldnames rows).length] ∈
      DataManagerQA.load_csv fieldnames rows := List.getElem_mem hidx
  obtain ⟨key, hkey⟩ := tryPick_isSome _ CardLogicQA.defaultWeights (rand 0).2
    (load_csv_qa_mem hmem)
  have hloop : CardLogicQA.selectLoop (DataManagerQA.load_csv fieldnames rows)
      CardLogicQA.defaultWeights rand 0 10 none =
      .picked ((rand 0).1 % (DataManagerQA.load_csv fieldnames rows).length) key := by
    have h10 : (10 : Nat) = 9 + 1 := rfl
    rw [h10]
    simp only [CardLogicQA.selectLoop]
    simp only [hcard, hkey]
  refine ⟨key, CardLogicQA.bumpQuestioned ((DataManagerQA.load_csv fieldnames rows).get
    ⟨(rand 0).1 % (DataManagerQA.load_csv fieldnames rows).length, hidx⟩), hloop, ?_⟩
  have hemp : (DataManagerQA.load_csv fieldnames rows).isEmpty = false := by
    rw [List.isEmpty_eq_false]
    exact hne
  simp only [CardLogicQA.get_random_card, hemp, Bool.false_eq_true, if_false, hloop, hcard,
    List.get_eq_getElem]

/-- C10 witness: a one-row file whose single header maps to `ChineseQ`; the
loader keeps the card, and selection succeeds on the first attempt with
`ChineseQ` as the prompt. -/
theorem claim_C10_first_attempt_witness :
    ∃ key card',
      CardLogicQA.selectLoop
          (DataManagerQA.load_csv [("ChineseQ".toList)] [[(("ChineseQ".toList), ('你' :: []))]])
          CardLogicQA.defaultWeights (fun _ => (0, 0)) 0 10 none =
        .picked ((0 : Nat) %
          (DataManagerQA.load_csv [("ChineseQ".toList)]
            [[(("ChineseQ".toList), ('你' :: []))]]).length) key
      ∧ CardLogicQA.get_random_card
          (DataManagerQA.load_csv [("ChineseQ".toList)] [[(("ChineseQ".toList), ('你' :: []))]])
          CardLogicQA.defaultWeights (fun _ => (0, 0)) =
        .ok (some ({ card := card', prompt_key := key,
                     expected_keys := CardLogicQA.keys.filter (fun k => k ≠ key) },
                   (DataManagerQA.load_csv [("ChineseQ".toList)]
                       [[(("ChineseQ".toList), ('你' :: []))]]).set
                     ((0 : Nat) %
                       (DataManagerQA.load_csv [("ChineseQ".toList)]
                         [[(("ChineseQ".toList), ('你' :: []))]]).length) card')) :=
  claim_C10_first_attempt [("ChineseQ".toList)] [[(("ChineseQ".toList), ('你' :: []))]]
    (fun _ => (0, 0)) (by decide)

/- ### Selection exhaustion (C6) and missing-file behaviour (C5) -/

/-- C6: evaluation of the code at the failing input.  A card list consisting
of one card with all six fields empty makes every one of the 10 attempts fail
to find a prompt candidate; the loop then exits with `prompt_key` unassigned
while `self.current` holds the (truthy) last card, so after the questioned
counter of that card is incremented,
`expected_keys = [k for k in keys if k != prompt_key]` raises an uncaught
`UnboundLocalError` instead of signalling "no card available". -/
theorem claim_C6_exhaustion_raises :
    CardLogicQA.get_random_card
      [{ chineseQ := [], jyutpingQ := [], englishQ := [], chineseA := [],
         jyutpingA := [], englishA := [], questioned := 0, correct := 0, row := none }]
      CardLogicQA.defaultWeights (fun _ => (0, 0)) =
      .nameError
        [{ chineseQ := [], jyutpingQ := [], englishQ := [], chineseA := [],
           jyutpingA := [], englishA := [], questioned := 1, correct := 0,
           row := none }] := by decide

/-- C5 counterexample: the QA Record Store's load, at a missing file, returns
`False` (an error report) and creates no file — against the claim that load
never reports an error on a missing file and creates a fresh header-only
file. -/
theorem claim_C5_counterexample :
    DataManagerQA.load_csv_fs none = (false, [], none) ∧ (false : Bool) ≠ true := by
  exact ⟨rfl, by decide⟩

/-- C5 (amended): on a missing file the simple-schema loader creates a fresh
file containing only the canonical header row and returns success with an
empty collection; the QA loader instead reports failure (returns `False`)
and creates no file. -/
theorem claim_C5_missing_file :
    DataManager.load_csv_fs none = (true, [], some DataManager.create_default_csv)
    ∧ DataManager.create_default_csv.header = DataManager.REQUIRED_HEADERS
    ∧ DataManager.create_default_csv.rows = []
    ∧ DataManagerQA.load_csv_fs none = (false, [], none) :=
  ⟨rfl, rfl, rfl, rfl⟩

/-- C4 counterexample to the claim as frozen: a failed QA selection — one
that raises `UnboundLocalError` and returns no item — still changes a
counter.  With a single card whose six fields are empty and whose questioned
counter is 5, `get_random_card` exhausts its attempts and raises, yet the
card's questioned counter has become 6. -/
theorem claim_C4_counterexample :
    CardLogicQA.get_random_card
      [{ chineseQ := [], jyutpingQ := [], englishQ := [], chineseA := [],
         jyutpingA := [], englishA := [], questioned := 5, correct := 3, row := none }]
      CardLogicQA.defaultWeights (fun _ => (0, 0)) =
      .nameError
        [{ chineseQ := [], jyutpingQ := [], englishQ := [], chineseA := [],
           jyutpingA := [], englishA := [], questioned := 6, correct := 3,
           row := none }] := by decide

/-- C4 witness: the simple-schema selection on a one-word list bumps the
questioned counter 5 → 6 and leaves correct at 2; the QA selection on a
one-card list bumps questioned 7 → 8 and leaves correct at 3, touching no
other entry; and the raising QA exhaustion path on an all-empty card bumps
exactly that card's questioned counter 5 → 6. -/
theorem claim_C4_counters_witness :
    (∃ w', CardLogic.get_random_card
        [{ char := ('你' :: []), jyut := ("ni".toList), eng := ("you".toList), q := 5, c := 2,
           type := [], row := ⟨('你' :: []), ("ni".toList), ("you".toList), ['5'], ['2'], []⟩ }]
        0 .eng =
        (some (w', .eng),
         [{ char := ('你' :: []), jyut := ("ni".toList), eng := ("you".toList), q := 5, c := 2,
            type := [],
            row := ⟨('你' :: []), ("ni".toList), ("you".toList), ['5'], ['2'], []⟩ }].set 0 w')
      ∧ w'.q = 6 ∧ w'.c = 2)
    ∧ (∃ idx, ∃ hlt : idx <
        ([{ chineseQ := ('你' :: []), jyutpingQ := [], englishQ := [], chineseA := [],
            jyutpingA := [], englishA := [], questioned := 7, correct := 3,
            row := none }] : List QACard).length,
        ({ card := { chineseQ := ('你' :: []), jyutpingQ := [], englishQ := [], chineseA := [],
                     jyutpingA := [], englishA := [], questioned := 8, correct := 3,
                     row := none },
           prompt_key := .chineseQ,
           expected_keys := [.jyutpingQ, .englishQ, .chineseA, .jyutpingA, .englishA] } :
            CardLogicQA.QASelect).card.questioned =
          (([{ chineseQ := ('你' :: []), jyutpingQ := [], englishQ := [], chineseA := [],
               jyutpingA := [], englishA := [], questioned := 7, correct := 3,
               row := none }] : List QACard).get ⟨idx, hlt⟩).questioned + 1
      ∧ ({ card := { chineseQ := ('你' :: []), jyutpingQ := [], englishQ := [], chineseA := [],
                     jyutpingA := [], englishA := [], questioned := 8, correct := 3,
                     row := none },
           prompt_key := .chineseQ,
           expected_keys := [.jyutpingQ, .englishQ, .chineseA, .jyutpingA, .englishA] } :
            CardLogicQA.QASelect).card.correct =
          (([{ chineseQ := ('你' :: []), jyutpingQ := [], englishQ := [], chineseA := [],
               jyutpingA := [], englishA := [], questioned := 7, correct := 3,
               row := none }] : List QACard).get ⟨idx, hlt⟩).correct
      ∧ ([{ chineseQ := ('你' :: []), jyutpingQ := [], englishQ := [], chineseA := [],
            jyutpingA := [], englishA := [], questioned := 8, correct := 3,
            row := none }] : List QACard) =
          ([{ chineseQ := ('你' :: []), jyutpingQ := [], englishQ := [], chineseA := [],
              jyutpingA := [], englishA := [], questioned := 7, correct := 3,
              row := none }] : List QACard).set idx
            ({ card := { chineseQ := ('你' :: []), jyutpingQ := [], englishQ := [],
                         chineseA := [], jyutpingA := [], englishA := [], questioned := 8,
                         correct := 3, row := none },
               prompt_key := .chineseQ,
               expected_keys := [.jyutpingQ, .englishQ, .chineseA, .jyutpingA, .englishA] } :
                CardLogicQA.QASelect).card
      ∧ ∀ j, j ≠ idx →
          ([{ chineseQ := ('你' :: []), jyutpingQ := [], englishQ := [], chineseA := [],
              jyutpingA := [], englishA := [], questioned := 8, correct := 3,
              row := none }] : List QACard)[j]? =
          ([{ chineseQ := ('你' :: []), jyutpingQ := [], englishQ := [], chineseA := [],
              jyutpingA := [], englishA := [], questioned := 7, correct := 3,
              row := none }] : List QACard)[j]?)
    ∧ (∃ i, ∃ hlt : i <
        ([{ chineseQ := [], jyutpingQ := [], englishQ := [], chineseA := [],
            jyutpingA := [], englishA := [], questioned := 5, correct := 3,
            row := none }] : List QACard).length,
        ([{ chineseQ := [], jyutpingQ := [], englishQ := [], chineseA := [],
            jyutpingA := [], englishA := [], questioned := 6, correct := 3,
            row := none }] : List QACard) =
          ([{ chineseQ := [], jyutpingQ := [], englishQ := [], chineseA := [],
              jyutpingA := [], englishA := [], questioned := 5, correct := 3,
              row := none }] : List QACard).set i
            (CardLogicQA.bumpQuestioned
              (([{ chineseQ := [], jyutpingQ := [], englishQ := [], chineseA := [],
                   jyutpingA := [], englishA := [], questioned := 5, correct := 3,
                   row := none }] : List QACard).get ⟨i, hlt⟩))
      ∧ (CardLogicQA.bumpQuestioned
          (([{ chineseQ := [], jyutpingQ := [], englishQ := [], chineseA := [],
               jyutpingA := [], englishA := [], questioned := 5, correct := 3,
               row := none }] : List QACard).get ⟨i, hlt⟩)).questioned =
          (([{ chineseQ := [], jyutpingQ := [], englishQ := [], chineseA := [],
               jyutpingA := [], englishA := [], questioned := 5, correct := 3,
               row := none }] : List QACard).get ⟨i, hlt⟩).questioned + 1
      ∧ (CardLogicQA.bumpQuestioned
          (([{ chineseQ := [], jyutpingQ := [], englishQ := [], chineseA := [],
               jyutpingA := [], englishA := [], questioned := 5, correct := 3,
               row := none }] : List QACard).get ⟨i, hlt⟩)).correct =
          (([{ chineseQ := [], jyutpingQ := [], englishQ := [], chineseA := [],
               jyutpingA := [], englishA := [], questioned := 5, correct := 3,
               row := none }] : List QACard).get ⟨i, hlt⟩).correct
      ∧ ∀ j, j ≠ i →
          ([{ chineseQ := [], jyutpingQ := [], englishQ := [], chineseA := [],
              jyutpingA := [], englishA := [], questioned := 6, correct := 3,
              row := none }] : List QACard)[j]? =
          ([{ chineseQ := [], jyutpingQ := [], englishQ := [], chineseA := [],
              jyutpingA := [], englishA := [], questioned := 5, correct := 3,
              row := none }] : List QACard)[j]?) := by
  refine ⟨?_, ?_, ?_⟩
  · obtain ⟨w', h1, h2, h3, _⟩ := claim_C4_counters.1
      [{ char := ('你' :: []), jyut := ("ni".toList), eng := ("you".toList), q := 5, c := 2,
         type := [], row := ⟨('你' :: []), ("ni".toList), ("you".toList), ['5'], ['2'], []⟩ }]
      0 .eng (by decide)
    exact ⟨w', h1, h2.trans (by decide), h3.trans (by decide)⟩
  · exact claim_C4_counters.2.2.1
      [{ chineseQ := ('你' :: []), jyutpingQ := [], englishQ := [], chineseA := [],
         jyutpingA := [], englishA := [], questioned := 7, correct := 3, row := none }]
      CardLogicQA.defaultWeights (fun _ => (0, 0))
      { card := { chineseQ := ('你' :: []), jyutpingQ := [], englishQ := [], chineseA := [],
                  jyutpingA := [], englishA := [], questioned := 8, correct := 3,
                  row := none },
        prompt_key := .chineseQ,
        expected_keys := [.jyutpingQ, .englishQ, .chineseA, .jyutpingA, .englishA] }
      [{ chineseQ := ('你' :: []), jyutpingQ := [], englishQ := [], chineseA := [],
         jyutpingA := [], englishA := [], questioned := 8, correct := 3, row := none }]
      (by decide)
  · exact claim_C4_counters.2.2.2.1
      [{ chineseQ := [], jyutpingQ := [], englishQ := [], chineseA := [],
         jyutpingA := [], englishA := [], questioned := 5, correct := 3, row := none }]
      CardLogicQA.defaultWeights (fun _ => (0, 0))
      [{ chineseQ := [], jyutpingQ := [], englishQ := [], chineseA := [],
         jyutpingA := [], englishA := [], questioned := 6, correct := 3, row := none }]
      (by decide)

/-!
### Audio filename derivation (`scripts/generate_tts.py`,
`src/qa/flashcard_app_qa.py`) — C8

`CHINESE_RE = re.compile(r'[一-鿿㐀-䶿豈-﫿]+')` is
shared verbatim by the generator and the app.  Python's `str.isalnum` (a
Unicode property: every CJK ideograph is category Lo, hence alphanumeric) is
passed in as an oracle predicate `isalnum`.
-/

/-- Membership in the character classes of `CHINESE_RE`. -/
def isCJKChar (c : Char) : Bool :=
  (0x4E00 ≤ c.toNat && c.toNat ≤ 0x9FFF) ||
  (0x3400 ≤ c.toNat && c.toNat ≤ 0x4DBF) ||
  (0xF900 ≤ c.toNat && c.toNat ≤ 0xFAFF)

/-- Fuel-driven scan (structural recursion, so that terms reduce in the
kernel); the string's length is always enough fuel. -/
def cjkRunsGo : Nat → PyStr → List PyStr
  | 0, _ => []
  | _ + 1, [] => []
  | fuel + 1, c :: rest =>
    if isCJKChar c then
      (c :: rest.takeWhile isCJKChar) :: cjkRunsGo fuel (rest.dropWhile isCJKChar)
    else cjkRunsGo fuel rest

/-- Model of `CHINESE_RE.findall(text)`: the maximal runs of CJK characters of the
text, in order. -/
def cjkRuns (text : PyStr) : List PyStr := cjkRunsGo text.length text

theorem cjkRunsGo_congr :
    ∀ fuel₁ (text : PyStr) fuel₂, text.length ≤ fuel₁ → text.length ≤ fuel₂ →
      cjkRunsGo fuel₁ text = cjkRunsGo fuel₂ text := by
  intro fuel₁
  induction fuel₁ with
  | zero =>
    intro text fuel₂ h1 h2
    have : text = [] := by
      rw [← List.length_eq_zero]
      omega
    subst this
    cases fuel₂ <;> rfl
  | succ f₁ ih =>
    intro text fuel₂ h1 h2
    rcases text with _ | ⟨c, rest⟩
    · cases fuel₂ <;> rfl
    · rcases fuel₂ with _ | f₂
      · simp at h2
      · show (if isCJKChar c then
            (c :: rest.takeWhile isCJKChar) :: cjkRunsGo f₁ (rest.dropWhile isCJKChar)
          else cjkRunsGo f₁ rest) =
          (if isCJKChar c then
            (c :: rest.takeWhile isCJKChar) :: cjkRunsGo f₂ (rest.dropWhile isCJKChar)
          else cjkRunsGo f₂ rest)
        rw [List.length_cons] at h1 h2
        have hdrop := (List.dropWhile_sublist (l := rest) isCJKChar).length_le
        by_cases hc : isCJKChar c
        · rw [if_pos hc, if_pos hc,
            ih (rest.dropWhile isCJKChar) f₂ (by omega) (by omega)]
        · rw [if_neg hc, if_neg hc, ih rest f₂ (by omega) (by omega)]

/-- The defining recurrences of `cjkRuns`. -/
theorem cjkRuns_cons (c : Char) (rest : PyStr) :
    cjkRuns (c :: rest) =
      if isCJKChar c then
        (c :: rest.takeWhile isCJKChar) :: cjkRuns (rest.dropWhile isCJKChar)
      else cjkRuns rest := by
  unfold cjkRuns
  rw [List.length_cons]
  show (if isCJKChar c then
      (c :: rest.takeWhile isCJKChar) :: cjkRunsGo rest.length (rest.dropWhile isCJKChar)
    else cjkRunsGo rest.length rest) = _
  have hdrop := (List.dropWhile_sublist (l := rest) isCJKChar).length_le
  by_cases hc : isCJKChar c
  · rw [if_pos hc, if_pos hc,
      cjkRunsGo_congr rest.length (rest.dropWhile isCJKChar) (rest.dropWhile isCJKChar).length
        (by omega) (by omega)]
  · rw [if_neg hc, if_neg hc]

theorem cjkRunsGo_mem :
    ∀ fuel (text t : PyStr), t ∈ cjkRunsGo fuel text →
      t ≠ [] ∧ ∀ c ∈ t, isCJKChar c = true := by
  intro fuel
  induction fuel with
  | zero =>
    intro text t h
    simp [cjkRunsGo] at h
  | succ f ih =>
    intro text t h
    rcases text with _ | ⟨c, rest⟩
    · simp [cjkRunsGo] at h
    · by_cases hc : isCJKChar c
      · rw [show cjkRunsGo (f + 1) (c :: rest) =
            (c :: rest.takeWhile isCJKChar) :: cjkRunsGo f (rest.dropWhile isCJKChar) from by
          simp [cjkRunsGo, hc]] at h
        rw [List.mem_cons] at h
        rcases h with h | h
        · subst h
          refine ⟨by simp, ?_⟩
          intro x hx
          rw [List.mem_cons] at hx
          rcases hx with rfl | hx
          · exact hc
          · exact List.mem_takeWhile_imp hx
        · exact ih _ t h
      · rw [show cjkRunsGo (f + 1) (c :: rest) = cjkRunsGo f rest from by
          simp [cjkRunsGo, hc]] at h
        exact ih _ t h

/-- Every extracted run is non-empty and purely CJK. -/
theorem cjkRuns_mem {text t : PyStr} (h : t ∈ cjkRuns text) :
    t ≠ [] ∧ ∀ c ∈ t, isCJKChar c = true :=
  cjkRunsGo_mem text.length text t h

/-- Running `findall` on a non-empty, purely CJK string returns that string as its
single (maximal) run. -/
theorem cjkRuns_of_all (t : PyStr) (hne : t ≠ []) (hall : ∀ c ∈ t, isCJKChar c = true) :
    cjkRuns t = [t] := by
  rcases t with _ | ⟨c, rest⟩
  · exact absurd rfl hne
  · rw [cjkRuns_cons, if_pos (hall c (List.mem_cons_self _ _))]
    have htw : rest.takeWhile isCJKChar = rest :=
      List.takeWhile_eq_self_iff.mpr (fun x hx => hall x (List.mem_cons_of_mem _ hx))
    have hdw : rest.dropWhile isCJKChar = [] :=
      List.dropWhile_eq_nil_iff.mpr (fun x hx => hall x (List.mem_cons_of_mem _ hx))
    rw [htw, hdw]
    rfl

/-- Model of `generate_tts.make_audio`'s output filename stem: every non-alphanumeric
character of the text replaced by an underscore (`str.isalnum` is the oracle
`isalnum`). -/
def make_audio_name (isalnum : Char → Bool) (text : PyStr) : PyStr :=
  text.map (fun ch => if isalnum ch then ch else '_')

/-- Model of `FlashcardQAApp.safe_name`: prefer the concatenation of the CJK runs;
fall back to underscore replacement when the text has no CJK characters. -/
def safe_name (isalnum : Char → Bool) (text : PyStr) : PyStr :=
  if text.isEmpty then []
  else
    let m := cjkRuns text
    if m.isEmpty then text.map (fun ch => if isalnum ch then ch else '_')
    else m.flatten

/-- C8: audio filename derivation equivalence.  For every alphanumericity
oracle that (like Python's `str.isalnum`) counts CJK ideographs as
alphanumeric, and for every text the generator produces a file for — i.e.
every run extracted by `CHINESE_RE.findall` from some CSV cell — the
generator's filename stem equals the playback app's. -/
theorem claim_C8_audio_name_equiv (isalnum : Char → Bool)
    (halnum : ∀ c, isCJKChar c = true → isalnum c = true)
    (cell text : PyStr) (htext : text ∈ cjkRuns cell) :
    make_audio_name isalnum text = safe_name isalnum text := by
  obtain ⟨hne, hall⟩ := cjkRuns_mem htext
  have hruns := cjkRuns_of_all text hne hall
  have hgen : make_audio_name isalnum text = text := by
    unfold make_audio_name
    rw [show text.map (fun ch => if isalnum ch then ch else '_') = text.map id from
      List.map_congr_left (fun a ha => by rw [halnum a (hall a ha)]; rfl)]
    exact List.map_id text
  rw [hgen]
  unfold safe_name
  rcases text with _ | ⟨c, rest⟩
  · exact absurd rfl hne
  · rw [if_neg (by simp)]
    rw [hruns]
    simp

/-- C8 witness: with an oracle agreeing with `str.isalnum` on the relevant
characters, the run `你好` extracted from the cell `你好 hello` gets the same
filename stem from both derivations. -/
theorem claim_C8_audio_name_equiv_witness :
    make_audio_name (fun c => c.isAlphanum || isCJKChar c) ('你' :: '好' :: []) =
      safe_name (fun c => c.isAlphanum || isCJKChar c) ('你' :: '好' :: []) :=
  claim_C8_audio_name_equiv (fun c => c.isAlphanum || isCJKChar c)
    (fun c h => by simp [h])
    ("你好 hello".toList) ('你' :: '好' :: []) (by decide)
